import Mathlib

/-!
NetworkManager (src/session/networkmanager.cpp).

A shallow embedding of the rendezvous service: the UDP datagram handler
`onRecvFrom`, the TCP handoff `onNewSocket`, `startSession`, the registry sweep
`handleTimeoutSessions`, the timer slot `onTimeout` and `stop`.

Every slot is a function from the service state (and the data the slot reads
from a socket, the clock or the UUID generator) to the next state and the list
of externally visible effects, in program order.

What the source file takes from headers that are not part of it (the opcode
constants, `HostInfo::REFLECT_CONNECT`, the `QString`/`QByteArray`
conversions, `crypt().decrypt`, the `HostPool` operations) is collected in
`Env` and every definition takes it as its first argument.
-/

namespace NetworkManager

/-! ## Data -/

/-- One `char` of a `QByteArray`. -/
abbrev Byte := Fin 256

/-- The bytes of a `QByteArray`. -/
abbrev QByteArray := List Byte

/-- A `QString`, as its sequence of UTF-16 code units. -/
abbrev QString := List Nat

/-- A `QHostAddress`, as a number. -/
abbrev QHostAddress := Nat

/-- A `QVariant` (the caller's session data), as an uninterpreted handle. -/
abbrev QVariant := Nat

/-- The `HostInfo` value: `addr`, `port`, `info`, `mode` are the four fields the
source reads and writes (lines 115-134). -/
structure HostInfo where
  addr : QHostAddress
  port : Nat
  info : QByteArray
  mode : Int
  deriving DecidableEq, Repr

/-- The `SessionInfo` value stored in `mSessionMap` (lines 232-237). `status`
holds an opcode constant: `OPERATION_SYN` while the ACK is awaited,
`OPERATION_ACK` once it arrived. `createTime` is a `time_t` in whole seconds. -/
structure SessionInfo where
  sessionData : QVariant
  sessionName : QString
  hostInfo : HostInfo
  createTime : Int
  status : Int
  deriving DecidableEq, Repr

/-- The `std::map<QString, SessionInfo>`: its entries in iteration order. -/
abbrev SessionMap := List (QString × SessionInfo)

/-- One entry of the host pool. -/
structure HostPoolEntry where
  hostInfo : HostInfo
  lastSeen : Int
  deriving DecidableEq, Repr

/-- Modelled from the spec: the class `HostPool` (its header and source are not
in this file). The spec gives a pool entry as hostInfo and lastSeen; the pool is
the list of its entries and `size()` is the number of entries. -/
abbrev HostPool := List HostPoolEntry

/-- The `Session` value built at lines 198-200 from the socket and the stored
hostInfo, name and data. Modelled from the spec: the class `Session` is not in
this file; `getSessionName` and `getHostInfo` return what the constructor was
given. -/
structure Session where
  hostInfo : HostInfo
  sessionName : QString
  sessionData : QVariant
  deriving DecidableEq, Repr

/-- What the source file takes from outside. The integer constants come from
`networkmanager.h`; the functions are library or collaborator code. -/
structure Env where
  /-- The 2-byte signature every datagram starts with. -/
  SIGNATURE : Int
  OPERATION_SYN : Int
  OPERATION_ACK : Int
  OPERATION_HEARTBEAT : Int
  OPERATION_ACCEPT_HOST : Int
  OPERATION_CONNECT_HOST : Int
  OPERATION_LISTEN_HOST : Int
  /-- The enumerator `HostInfo::REFLECT_CONNECT`. -/
  REFLECT_CONNECT : Int
  /-- The number of bits of `time_t` on the platform (32 or 64). -/
  timeBits : Nat
  /-- The conversion `QString(const QByteArray&)` applied when a `QByteArray`
  is used as a key of `mSessionMap`. -/
  toQString : QByteArray → QString
  /-- The conversion `QString::toLocal8Bit`. -/
  toLocal8Bit : QString → QByteArray
  /-- The collaborator `crypt().decrypt`, which rewrites a buffer in place. -/
  decrypt : QByteArray → QByteArray
  /-- The pool operation `HostPool::putItem`. -/
  putItem : HostPool → HostInfo → HostPool
  /-- The pool operation `HostPool::cleanTimeoutItem`. -/
  cleanTimeoutItem : HostPool → HostPool

/-- The members of `NetworkManager` the slots read and write. -/
structure State where
  mIsStart : Bool
  mTimeout : Int
  mSessionMap : SessionMap
  mHostPool : HostPool
  deriving DecidableEq, Repr

/-- The externally visible actions of the slots. The two session signals carry
(name, hostInfo) in the source; `key` records in addition the map key of the
entry the signal was emitted for, so that a trace can be read per entry. -/
inductive Effect where
  /-- The call `mUdpSocket.writeDatagram(data, addr, port)`. -/
  | writeDatagram (data : QByteArray) (addr : QHostAddress) (port : Nat)
  /-- The signal `onHostPoolChange()`. -/
  | onHostPoolChange
  /-- The signal `onHostIncome(hostInfo)`. -/
  | onHostIncome (hostInfo : HostInfo)
  /-- A new `QTcpSocket`, passed to `handleNewSocket`, then
  `connectToHost(host, listenPort)` (lines 154-156). -/
  | connectToHost (addr : QHostAddress) (port : Nat)
  /-- The three `QObject::disconnect` calls at lines 186-188. -/
  | disconnectSlots
  /-- The call `socket->close()`. -/
  | socketClose
  /-- The signal `onStartSessionSuccess(name, hostInfo)`. -/
  | onStartSessionSuccess (key : QString) (name : QString) (hostInfo : HostInfo)
  /-- The call `dataPack->writeDataPack(payload)`. -/
  | writeDataPack (payload : QByteArray)
  /-- The call `dataPack->deleteLater()`. -/
  | dataPackDeleteLater
  /-- The call `mSessionManager.handleSession(session)`. -/
  | handleSession (session : Session)
  /-- The signal `onStartSessionFailed(name, hostInfo)`. -/
  | onStartSessionFailed (key : QString) (name : QString) (hostInfo : HostInfo)
  /-- The call `mUdpSocket.close()`. -/
  | udpClose
  /-- The call `mTcpServer.close()`. -/
  | tcpClose
  /-- The call `mTimer.stop()`. -/
  | timerStop
  /-- The call `mUdpSocket.bind(port)`. -/
  | udpBind (port : Int)
  /-- The call `mTcpServer.listen(QHostAddress::Any, port)`. -/
  | tcpListen (port : Int)
  /-- The call `mUdpSocket.open(QIODevice::ReadWrite)`. -/
  | udpOpen
  /-- The call `mTimer.start(1000)`. -/
  | timerStart (msec : Nat)
  deriving DecidableEq, Repr

/-! ## Wire codec (`QDataStream`, big-endian) -/

/-- The value of an integer after conversion to `short` (16-bit two's
complement). -/
def toShort (x : Int) : Int := (x + 32768) % 65536 - 32768

/-- The two bytes `QDataStream` writes for a `short`, high byte first. -/
def putShort (x : Int) : QByteArray :=
  [Fin.ofNat ((x % 65536).toNat / 256), Fin.ofNat ((x % 65536).toNat % 256)]

/-- The `short` extracted by `dataStream >> v` when the stream stands at offset
`off`: two bytes, high byte first; when fewer than two bytes are left the read
fails and `v` is 0 (and so is every later read). -/
def readShort (d : QByteArray) (off : Nat) : Int :=
  match d.drop off with
  | b0 :: b1 :: _ => toShort (((b0.val * 256 + b1.val : Nat) : Int))
  | _ => 0

/-- The array left by `QByteArray::remove(0, n)`: the first `n` bytes are
dropped, and an array shorter than `n` becomes empty. -/
def removeFront (n : Nat) (d : QByteArray) : QByteArray := d.drop n

/-! ## `std::map` operations -/

/-- The comparison `operator<` of `QString`: lexicographic on code units. -/
def qstringLess : QString → QString → Bool
  | [], [] => false
  | [], _ :: _ => true
  | _ :: _, [] => false
  | a :: as, b :: bs =>
    if a < b then true else if b < a then false else qstringLess as bs

/-- The keys of a map in iteration order. -/
def mapKeys (m : SessionMap) : List QString := m.map Prod.fst

/-- The call `mSessionMap.find(k)`: the entry stored under `k`, if any. -/
def mapFind (k : QString) : SessionMap → Option SessionInfo
  | [] => none
  | (k', v) :: m => if k = k' then some v else mapFind k m

/-- The assignment `mSessionMap[k] = v`: overwrite the entry of `k`, or insert
a new entry at its place in key order. -/
def mapAssign (k : QString) (v : SessionInfo) : SessionMap → SessionMap
  | [] => [(k, v)]
  | (k', v') :: m =>
    if k = k' then (k, v) :: m
    else if qstringLess k k' then (k, v) :: (k', v') :: m
    else (k', v') :: mapAssign k v m

/-- The call `mSessionMap.erase(it)` for the iterator `find(k)` returned. -/
def mapErase (k : QString) : SessionMap → SessionMap
  | [] => []
  | (k', v) :: m => if k = k' then m else (k', v) :: mapErase k m

/-- The write `it->second.status = s` through the iterator `find(k)` returned. -/
def mapSetStatus (k : QString) (s : Int) : SessionMap → SessionMap
  | [] => []
  | (k', v) :: m =>
    if k = k' then (k', { v with status := s }) :: m
    else (k', v) :: mapSetStatus k s m

/-! ## The slots -/

/-- The constructor's `init()` (lines 14-17): not started, timeout 10000. -/
def init : State :=
  { mIsStart := false, mTimeout := 10000, mSessionMap := [], mHostPool := [] }

/-- The datagram `sendSynPack` builds (lines 220-224): signature, the SYN
opcode cast to `short`, then the raw bytes of the session uuid. Modelled from
the spec: `SIGNATURE` is written as a 2-byte value, like the `short` the
receiver reads it into. -/
def synPack (E : Env) (sessionUuid : QByteArray) : QByteArray :=
  putShort E.SIGNATURE ++ putShort (toShort E.OPERATION_SYN) ++ sessionUuid

/-- `NetworkManager::sendSynPack` (lines 218-226). -/
def sendSynPack (E : Env) (hostInfo : HostInfo) (sessionUuid : QByteArray) : Effect :=
  Effect.writeDatagram (synPack E sessionUuid) hostInfo.addr hostInfo.port

/-- The opcode written at line 121. -/
def directiveOpcode (E : Env) (hostInfo : HostInfo) : Int :=
  if hostInfo.mode = E.REFLECT_CONNECT then E.OPERATION_CONNECT_HOST
  else E.OPERATION_LISTEN_HOST

/-- The datagram built at lines 118-122 after an ACK was accepted: signature,
the directive opcode cast to `short`, then the raw bytes of the uuid. -/
def directivePack (E : Env) (hostInfo : HostInfo) (uuid : QByteArray) : QByteArray :=
  putShort E.SIGNATURE ++ putShort (toShort (directiveOpcode E hostInfo)) ++ uuid

/-- `NetworkManager::onIncomeHost` (lines 70-79). -/
def onIncomeHost (E : Env) (st : State) (hostInfo : HostInfo) : State × List Effect :=
  let poolSize := st.mHostPool.length
  let pool := E.putItem st.mHostPool hostInfo
  ({ st with mHostPool := pool },
    if poolSize ≠ pool.length then [Effect.onHostPoolChange, Effect.onHostIncome hostInfo]
    else [])

/-- `NetworkManager::onRecvFrom` (lines 81-162) for the datagram `datagram`
read from the socket, sent by `host`:`port`. -/
def onRecvFrom (E : Env) (st : State) (datagram : QByteArray) (host : QHostAddress)
    (port : Nat) : State × List Effect :=
  let signature := readShort datagram 0
  if signature ≠ E.SIGNATURE then (st, [])
  else
    let operation := readShort datagram 2
    if operation = E.OPERATION_ACK then
      let uuid := removeFront 4 datagram
      match mapFind (E.toQString uuid) st.mSessionMap with
      | none => (st, [])
      | some info =>
        if info.status = E.OPERATION_SYN then
          ({ st with mSessionMap :=
                mapSetStatus (E.toQString uuid) E.OPERATION_ACK st.mSessionMap },
            [Effect.writeDatagram (directivePack E info.hostInfo uuid)
              info.hostInfo.addr info.hostInfo.port])
        else (st, [])
    else if operation = E.OPERATION_HEARTBEAT then
      let info := E.decrypt (removeFront 4 datagram)
      onIncomeHost E st
        { addr := host, port := port, info := info, mode := E.REFLECT_CONNECT }
    else if operation = E.OPERATION_ACCEPT_HOST then
      let listenPort := readShort datagram 4
      if listenPort = 0 then (st, [])
      else
        let uuid := removeFront 6 datagram
        match mapFind (E.toQString uuid) st.mSessionMap with
        | none => (st, [])
        | some _ => (st, [Effect.connectToHost host (listenPort % 65536).toNat])
    else (st, [])

/-- `NetworkManager::onNewSocket` (lines 183-216) for the first frame `data`
read from the new socket. -/
def onNewSocket (E : Env) (st : State) (data : QByteArray) : State × List Effect :=
  match mapFind (E.toQString data) st.mSessionMap with
  | none => (st, [Effect.disconnectSlots, Effect.socketClose])
  | some info =>
    let session : Session :=
      { hostInfo := info.hostInfo, sessionName := info.sessionName,
        sessionData := info.sessionData }
    ({ st with mSessionMap := mapErase (E.toQString data) st.mSessionMap },
      [Effect.disconnectSlots,
       Effect.onStartSessionSuccess (E.toQString data) session.sessionName session.hostInfo,
       Effect.writeDataPack (E.toLocal8Bit session.sessionName),
       Effect.dataPackDeleteLater,
       Effect.handleSession session])

/-- `NetworkManager::startSession` (lines 228-246); `now` is what
`currentTime()` returns and `sessionUuid` what `QUuid::createUuid().toByteArray()`
returns. -/
def startSession (E : Env) (st : State) (hostInfo : HostInfo) (sessionName : QString)
    (sessionData : QVariant) (now : Int) (sessionUuid : QByteArray) : State × List Effect :=
  if hostInfo.mode ≠ E.REFLECT_CONNECT ∨ hostInfo.mode ≠ E.REFLECT_CONNECT then (st, [])
  else
    let info : SessionInfo :=
      { sessionData := sessionData, sessionName := sessionName, hostInfo := hostInfo,
        createTime := now, status := E.OPERATION_SYN }
    ({ st with mSessionMap := mapAssign (E.toQString sessionUuid) info st.mSessionMap },
      [sendSynPack E hostInfo sessionUuid])

/-- The number of non-negative values of `time_t`, a two's-complement integer
of `bits` bits: its values are the integers from `-timeHalf` up to
`timeHalf - 1`. -/
def timeHalf (bits : Nat) : Int := ((2 ^ (bits - 1) : Nat) : Int)

/-- The value of an integer after conversion to `time_t`, a two's-complement
integer of `bits` bits: arithmetic on `time_t` that leaves the range wraps
around. -/
def toTimeT (bits : Nat) (x : Int) : Int :=
  (x + timeHalf bits) % ((2 ^ bits : Nat) : Int) - timeHalf bits

/-- The expiry test of line 255, `(currentTime() - createTime)*1000 >= mTimeout`,
for the clock reading `now` (whole seconds) and the timeout `mTimeout`
(milliseconds). The difference and the product are computed in `time_t`. -/
def expired (E : Env) (now mTimeout : Int) (v : SessionInfo) : Bool :=
  decide (toTimeT E.timeBits (toTimeT E.timeBits (now - v.createTime) * 1000) ≥ mTimeout)

/-- The loop of `handleTimeoutSessions` between two evaluations of its
condition: `visited` are the entries before the iterator, `rest` the entries
from the iterator on, `calls` the number of `currentTime()` calls made so far and
`out` what was emitted so far. -/
structure SweepState where
  calls : Nat
  visited : SessionMap
  rest : SessionMap
  out : List Effect
  deriving DecidableEq, Repr

/-- One evaluation of the loop condition and body (lines 253-267); `clock n`
is what the `n`-th call of `currentTime()` inside the loop returns. When the
iterator is at `end()` the loop has exited and nothing changes. -/
def sweepStep (E : Env) (clock : Nat → Int) (mTimeout : Int) (s : SweepState) : SweepState :=
  match s.rest with
  | [] => s
  | (k, v) :: rest =>
    if expired E (clock s.calls) mTimeout v then
      { calls := s.calls + 1, visited := s.visited, rest := rest,
        out := s.out ++ [Effect.onStartSessionFailed k v.sessionName v.hostInfo] }
    else if v.status = E.OPERATION_SYN then
      { calls := s.calls + 1, visited := s.visited ++ [(k, v)], rest := rest,
        out := s.out ++ [sendSynPack E v.hostInfo (E.toLocal8Bit k)] }
    else
      { calls := s.calls + 1, visited := s.visited, rest := (k, v) :: rest, out := s.out }

/-- The loop after `n` evaluations of its condition. -/
def sweepIter (E : Env) (clock : Nat → Int) (mTimeout : Int) : Nat → SweepState → SweepState
  | 0, s => s
  | n + 1, s => sweepIter E clock mTimeout n (sweepStep E clock mTimeout s)

/-- The loop state on entry: iterator at `begin()`. -/
def sweepStart (st : State) : SweepState :=
  { calls := 0, visited := [], rest := st.mSessionMap, out := [] }

/-- `NetworkManager::handleTimeoutSessions` (lines 248-268), run for at most
`fuel` evaluations of the loop condition: the state and effects when the loop
has exited by then, `none` when it is still running. -/
def handleTimeoutSessions (E : Env) (clock : Nat → Int) (fuel : Nat) (st : State) :
    Option (State × List Effect) :=
  let s := sweepIter E clock st.mTimeout fuel (sweepStart st)
  match s.rest with
  | [] => some ({ st with mSessionMap := s.visited }, s.out)
  | _ :: _ => none

/-- `NetworkManager::onTimeout` (lines 59-68). -/
def onTimeout (E : Env) (clock : Nat → Int) (fuel : Nat) (st : State) :
    Option (State × List Effect) :=
  match handleTimeoutSessions E clock fuel st with
  | none => none
  | some (st1, out) =>
    let poolSize := st1.mHostPool.length
    let pool := E.cleanTimeoutItem st1.mHostPool
    some ({ st1 with mHostPool := pool },
      out ++ (if poolSize ≠ pool.length then [Effect.onHostPoolChange] else []))

/-- `NetworkManager::stop` (lines 48-57). -/
def stop (st : State) : State × List Effect :=
  ({ st with mIsStart := false, mSessionMap := [] },
    [Effect.udpClose, Effect.tcpClose, Effect.timerStop])

/-- `NetworkManager::start` (lines 34-46); `bindOk` and `listenOk` are what
`mUdpSocket.bind` and `mTcpServer.listen` return (`listen` is only called when
`bind` succeeded). The third component is the returned `bool`. -/
def start (st : State) (port : Int) (bindOk listenOk : Bool) : State × List Effect × Bool :=
  if st.mIsStart then (st, [], false)
  else
    let st1 := { st with mIsStart := true }
    if !(bindOk && listenOk) then
      let r := stop st1
      (r.1, (Effect.udpBind port :: (if bindOk then [Effect.tcpListen port] else [])) ++ r.2,
        false)
    else
      (st1, [Effect.udpBind port, Effect.tcpListen port, Effect.udpOpen,
        Effect.timerStart 1000], true)

/-! ## Runs of the service -/

/-- One operation of the service together with what it reads from outside. -/
inductive Op where
  /-- A call of `startSession`; `now` is the clock reading and `sessionUuid`
  the generated uuid. -/
  | startSession (hostInfo : HostInfo) (sessionName : QString) (sessionData : QVariant)
      (now : Int) (sessionUuid : QByteArray)
  /-- A datagram delivered to `onRecvFrom`. -/
  | recvFrom (datagram : QByteArray) (host : QHostAddress) (port : Nat)
  /-- A first frame delivered to `onNewSocket`. -/
  | newSocket (data : QByteArray)
  /-- A timer tick delivered to `onTimeout`; `clock` gives the clock readings
  inside the sweep and `fuel` bounds the loop evaluations observed. -/
  | timeout (clock : Nat → Int) (fuel : Nat)
  /-- A call of `stop`. -/
  | stop

/-- The operation run to completion: the next state and what it emitted, or
`none` when the sweep of a tick is still inside its loop after `fuel`
evaluations. -/
def applyOp (E : Env) (op : Op) (st : State) : Option (State × List Effect) :=
  match op with
  | Op.startSession hostInfo sessionName sessionData now sessionUuid =>
    some (startSession E st hostInfo sessionName sessionData now sessionUuid)
  | Op.recvFrom datagram host port => some (onRecvFrom E st datagram host port)
  | Op.newSocket data => some (onNewSocket E st data)
  | Op.timeout clock fuel => onTimeout E clock fuel st
  | Op.stop => some (stop st)

/-- What an operation that has not returned has emitted so far: for a tick,
the output of the sweep after `fuel` loop evaluations. -/
def partialEffects (E : Env) (op : Op) (st : State) : List Effect :=
  match op with
  | Op.timeout clock fuel => (sweepIter E clock st.mTimeout fuel (sweepStart st)).out
  | _ => []

/-- The effects of running the operations in order from `st`. The slots run
one after the other on the object's event loop; an operation that does not
return ends the run. -/
def runOps (E : Env) : List Op → State → List Effect
  | [], _ => []
  | op :: ops, st =>
    match applyOp E op st with
    | some (st1, out) => out ++ runOps E ops st1
    | none => partialEffects E op st

/-- The map keys of the uuids generated for the `startSession` calls of a run. -/
def startKeys (E : Env) : List Op → List QString
  | [] => []
  | Op.startSession _ _ _ _ sessionUuid :: ops => E.toQString sessionUuid :: startKeys E ops
  | _ :: ops => startKeys E ops

/-! ## Reading a trace -/

/-- Is the effect a session signal (started or failed) for the entry of `k`? -/
def isTerminalFor (k : QString) : Effect → Bool
  | Effect.onStartSessionSuccess key _ _ => decide (key = k)
  | Effect.onStartSessionFailed key _ _ => decide (key = k)
  | _ => false

/-- The number of session signals (started or failed) for the entry of `k`. -/
def terminalCount (k : QString) (out : List Effect) : Nat := out.countP (isTerminalFor k)

/-- How often the key `k` occurs in a list of keys. -/
def occurrences (k : QString) : List QString → Nat
  | [] => 0
  | x :: l => (if x = k then 1 else 0) + occurrences k l

/-- The `onStartSessionFailed` signals of a trace, in order: key of the entry,
name, hostInfo. -/
def failedSignals : List Effect → List (QString × QString × HostInfo)
  | [] => []
  | Effect.onStartSessionFailed key name hostInfo :: out =>
    (key, name, hostInfo) :: failedSignals out
  | _ :: out => failedSignals out

/-- The datagrams written by a trace, in order: bytes, address, port. -/
def datagramsSent : List Effect → List (QByteArray × QHostAddress × Nat)
  | [] => []
  | Effect.writeDatagram data addr port :: out => (data, addr, port) :: datagramsSent out
  | _ :: out => datagramsSent out

/-- What one visit of the loop body emits for the entry (`k`, `v`) when the
clock reads `now`: the failed signal when expired, else the SYN when the ACK is
still awaited, else nothing. -/
def visitOutput (E : Env) (now mTimeout : Int) (k : QString) (v : SessionInfo) : List Effect :=
  if expired E now mTimeout v then [Effect.onStartSessionFailed k v.sessionName v.hostInfo]
  else if v.status = E.OPERATION_SYN then [sendSynPack E v.hostInfo (E.toLocal8Bit k)]
  else []

/-- The visits of all entries of `m` in iteration order under the clock
reading `now`. -/
def sweepOutput (E : Env) (now mTimeout : Int) : SessionMap → List Effect
  | [] => []
  | (k, v) :: m => visitOutput E now mTimeout k v ++ sweepOutput E now mTimeout m

/-- The `HostInfo` built from a heartbeat datagram at lines 127-134: the
sender's address and port, the decrypted payload, mode REFLECT_CONNECT. -/
def heartbeatHost (E : Env) (datagram : QByteArray) (host : QHostAddress) (port : Nat) :
    HostInfo :=
  { addr := host, port := port, info := E.decrypt (removeFront 4 datagram),
    mode := E.REFLECT_CONNECT }

/-! ## Calls of the service -/

/-- `NetworkManager::setTimeout` (lines 275-278). -/
def setTimeout (st : State) (value : Int) : State := { st with mTimeout := value }

/-- `NetworkManager::getTimeout` (lines 270-273). -/
def getTimeout (st : State) : Int := st.mTimeout

/-- A call into the service: one of the slots and `startSession`/`stop` (an
`Op`), `start`, or `setTimeout`. -/
inductive Call where
  /-- One of the operations of `Op`. -/
  | slot (op : Op)
  /-- A call of `start(port)`, with what `bind` and `listen` return. -/
  | start (port : Int) (bindOk listenOk : Bool)
  /-- A call of `setTimeout(value)`. -/
  | setTimeout (value : Int)

/-- The state after a call that returns; `none` when the sweep of a tick is
still inside its loop after its fuel. -/
def applyCall (E : Env) (c : Call) (st : State) : Option State :=
  match c with
  | Call.slot op => (applyOp E op st).map Prod.fst
  | Call.start port bindOk listenOk => some (start st port bindOk listenOk).1
  | Call.setTimeout value => some (setTimeout st value)

/-- The state after the calls, made in order from `st`, have all returned. -/
def runCalls (E : Env) : List Call → State → Option State
  | [], st => some st
  | c :: cs, st =>
    match applyCall E c st with
    | some st1 => runCalls E cs st1
    | none => none

/-- Is the effect one of the four signals to the consumer (session started,
session failed, host pool changed, new host arrived)? -/
def isNotification : Effect → Bool
  | Effect.onStartSessionSuccess _ _ _ => true
  | Effect.onStartSessionFailed _ _ _ => true
  | Effect.onHostPoolChange => true
  | Effect.onHostIncome _ => true
  | _ => false

/-! ## A concrete environment -/

/-- A concrete environment on which the definitions can be evaluated. The
constants of `networkmanager.h` are not in the source file: the values here are
pairwise distinct numbers in the range of `short`; `time_t` has 64 bits. The
conversions are the
Latin-1 ones (`QString(const QByteArray&)` stops at the first NUL byte), the pool
is keyed by address and port and `decrypt` flips every bit. -/
def sampleEnv : Env where
  SIGNATURE := 4660
  OPERATION_SYN := 1
  OPERATION_ACK := 2
  OPERATION_HEARTBEAT := 3
  OPERATION_CONNECT_HOST := 4
  OPERATION_LISTEN_HOST := 5
  OPERATION_ACCEPT_HOST := 6
  REFLECT_CONNECT := 0
  timeBits := 64
  toQString := fun b => (b.takeWhile (fun c => c ≠ 0)).map Fin.val
  toLocal8Bit := fun s => s.map (fun c => if c < 256 then Fin.ofNat c else 63)
  decrypt := fun b => b.map (fun c => 255 - c)
  putItem := fun pool h =>
    if pool.any (fun e => e.hostInfo.addr = h.addr ∧ e.hostInfo.port = h.port) then
      pool.map (fun e =>
        if e.hostInfo.addr = h.addr ∧ e.hostInfo.port = h.port then
          { hostInfo := h, lastSeen := e.lastSeen }
        else e)
    else pool ++ [{ hostInfo := h, lastSeen := 0 }]
  cleanTimeoutItem := fun pool => pool

/-- The environment `sampleEnv` on a platform whose `time_t` has 32 bits. -/
def sampleEnv32 : Env := { sampleEnv with timeBits := 32 }

/-- A host in connect mode, for `sampleEnv`. -/
def sampleHost : HostInfo := { addr := 167772161, port := 5000, info := [], mode := 0 }

/-- A registry entry for `sampleHost` created at second `t` with status `s`. -/
def sampleInfo (t : Int) (s : Int) : SessionInfo :=
  { sessionData := 7, sessionName := [97], hostInfo := sampleHost, createTime := t,
    status := s }

/-- A service state holding the registry `m`, with the default timeout. -/
def sampleState (m : SessionMap) : State :=
  { mIsStart := true, mTimeout := 10000, mSessionMap := m, mHostPool := [] }

/-! ## The datagram handler: SYN -/

/-- C1 (as stated, refuted): a datagram with a valid signature, opcode SYN and
payload token [1,2,3] is handled without any effect; no ACK datagram (no datagram
at all) goes back to the sender. -/
theorem C1_syn_gets_no_ack :
    readShort (synPack sampleEnv [1, 2, 3]) 0 = sampleEnv.SIGNATURE ∧
    readShort (synPack sampleEnv [1, 2, 3]) 2 = sampleEnv.OPERATION_SYN ∧
    removeFront 4 (synPack sampleEnv [1, 2, 3]) = [1, 2, 3] ∧
    (onRecvFrom sampleEnv (sampleState []) (synPack sampleEnv [1, 2, 3]) 9 4000).2 = [] ∧
    datagramsSent
      (onRecvFrom sampleEnv (sampleState []) (synPack sampleEnv [1, 2, 3]) 9 4000).2 = [] := by
  decide

/-- C1 (amended): for every datagram with a valid signature and opcode SYN, the
SYN opcode being none of the three opcodes the handler tests for, `onRecvFrom`
has no effect at all: nothing is sent and the state (registry included) is
unchanged, whether or not the token is in the registry. -/
theorem C1_syn_is_ignored (E : Env) (st : State) (datagram : QByteArray)
    (host : QHostAddress) (port : Nat)
    (hsig : readShort datagram 0 = E.SIGNATURE)
    (hop : readShort datagram 2 = E.OPERATION_SYN)
    (hack : E.OPERATION_SYN ≠ E.OPERATION_ACK)
    (hheart : E.OPERATION_SYN ≠ E.OPERATION_HEARTBEAT)
    (haccept : E.OPERATION_SYN ≠ E.OPERATION_ACCEPT_HOST) :
    onRecvFrom E st datagram host port = (st, []) := by
  simp [onRecvFrom, hsig, hop, hack, hheart, haccept]

/-- Witness of `C1_syn_is_ignored`: the SYN datagram for token [1,2,3] arriving
while that token is in the registry. -/
theorem C1_syn_is_ignored_witness :
    onRecvFrom sampleEnv (sampleState [([1, 2, 3], sampleInfo 100 1)])
      (synPack sampleEnv [1, 2, 3]) 9 4000
      = (sampleState [([1, 2, 3], sampleInfo 100 1)], []) :=
  C1_syn_is_ignored sampleEnv _ _ 9 4000 (by decide) (by decide) (by decide) (by decide)
    (by decide)

/-! ## The sweep -/

/-- A loop evaluation at an entry that is neither expired nor awaiting its ACK
changes nothing but the number of clock readings. -/
theorem sweepStep_stuck (E : Env) (clock : Nat → Int) (mTimeout : Int) (s : SweepState)
    (k : QString) (v : SessionInfo) (rest : SessionMap) (hrest : s.rest = (k, v) :: rest)
    (hexp : expired E (clock s.calls) mTimeout v = false) (hst : v.status ≠ E.OPERATION_SYN) :
    sweepStep E clock mTimeout s = { s with calls := s.calls + 1 } := by
  cases s with
  | mk calls visited rest0 out =>
    simp only at hrest hexp
    subst hrest
    simp [sweepStep, hexp, hst]

/-- Under a clock that stands still the loop never leaves such an entry. -/
theorem sweepIter_stuck (E : Env) (now mTimeout : Int) (k : QString) (v : SessionInfo)
    (hexp : expired E now mTimeout v = false) (hst : v.status ≠ E.OPERATION_SYN) :
    ∀ (n : Nat) (s : SweepState) (rest : SessionMap), s.rest = (k, v) :: rest →
      sweepIter E (fun _ => now) mTimeout n s = { s with calls := s.calls + n } := by
  intro n
  induction n with
  | zero => intro s rest _; rfl
  | succ n ih =>
    intro s rest hrest
    have hstep := sweepStep_stuck E (fun _ => now) mTimeout s k v rest hrest hexp hst
    rw [sweepIter, hstep, ih { s with calls := s.calls + 1 } rest hrest]
    simp only [Nat.add_assoc, Nat.add_comm 1 n]

/-- C2 (the code at the failing input): the registry holds one entry, created
at second 100 with status `OPERATION_ACK`, the timeout is 10000 ms. While the
clock reads 100 the sweep has not returned after any number of loop evaluations;
under a clock that advances by one second per reading it has not returned after
10 evaluations and returns after the 11th, all of them at the same entry, which
it then reports as failed. -/
theorem C2_sweep_spins_on_acked_entry :
    (∀ fuel : Nat,
      handleTimeoutSessions sampleEnv (fun _ => 100) fuel
        (sampleState [([65], sampleInfo 100 2)]) = none) ∧
    handleTimeoutSessions sampleEnv (fun n => 100 + n) 10
      (sampleState [([65], sampleInfo 100 2)]) = none ∧
    handleTimeoutSessions sampleEnv (fun n => 100 + n) 11
      (sampleState [([65], sampleInfo 100 2)])
      = some (sampleState [], [Effect.onStartSessionFailed [65] [97] sampleHost]) := by
  refine ⟨?_, ?_, ?_⟩
  · intro fuel
    have h := sweepIter_stuck sampleEnv 100 10000 [65] (sampleInfo 100 2) (by decide)
      (by decide) fuel (sweepStart (sampleState [([65], sampleInfo 100 2)])) [] rfl
    simp only [handleTimeoutSessions, sampleState] at h ⊢
    rw [h]
    rfl
  · decide
  · decide

/-- Once the iterator is at `end()` further evaluations change nothing. -/
theorem sweepIter_done (E : Env) (clock : Nat → Int) (mTimeout : Int) :
    ∀ (n : Nat) (s : SweepState), s.rest = [] → sweepIter E clock mTimeout n s = s := by
  intro n
  induction n with
  | zero => intro s _; rfl
  | succ n ih =>
    intro s hs
    have hstep : sweepStep E clock mTimeout s = s := by
      cases s with
      | mk calls visited rest out =>
        simp only at hs
        subst hs
        rfl
    rw [sweepIter, hstep, ih s hs]

/-- Under a clock that stands still, a loop that has exited has visited every
remaining entry once: the entries kept are the unexpired ones, the output is
that of one visit per entry, and no entry was unexpired with a status other
than `OPERATION_SYN`. -/
theorem sweepIter_exit (E : Env) (now mTimeout : Int) :
    ∀ (n : Nat) (s : SweepState),
      (sweepIter E (fun _ => now) mTimeout n s).rest = [] →
      (sweepIter E (fun _ => now) mTimeout n s).visited
          = s.visited ++ s.rest.filter (fun e => !expired E now mTimeout e.2) ∧
      (sweepIter E (fun _ => now) mTimeout n s).out
          = s.out ++ sweepOutput E now mTimeout s.rest ∧
      ∀ e ∈ s.rest, expired E now mTimeout e.2 = false → e.2.status = E.OPERATION_SYN := by
  intro n
  induction n with
  | zero =>
    intro s hs
    simp only [sweepIter] at hs ⊢
    simp [hs, sweepOutput]
  | succ n ih =>
    intro s hs
    cases s with
    | mk calls visited rest out =>
      cases rest with
      | nil =>
        rw [sweepIter_done E _ mTimeout (n + 1) _ rfl]
        simp [sweepOutput]
      | cons e rest =>
        obtain ⟨k, v⟩ := e
        by_cases hexp : expired E now mTimeout v = true
        · have hstep : sweepStep E (fun _ => now) mTimeout ⟨calls, visited, (k, v) :: rest, out⟩
              = ⟨calls + 1, visited, rest,
                  out ++ [Effect.onStartSessionFailed k v.sessionName v.hostInfo]⟩ := by
            simp [sweepStep, hexp]
          rw [sweepIter, hstep] at hs ⊢
          obtain ⟨h1, h2, h3⟩ := ih _ hs
          refine ⟨?_, ?_, ?_⟩
          · rw [h1]; simp [hexp]
          · rw [h2]; simp [sweepOutput, visitOutput, hexp]
          · intro e he hne
            rcases List.mem_cons.mp he with rfl | he
            · simp [hexp] at hne
            · exact h3 e he hne
        · have hexp : expired E now mTimeout v = false := by simpa using hexp
          by_cases hst : v.status = E.OPERATION_SYN
          · have hstep : sweepStep E (fun _ => now) mTimeout
                ⟨calls, visited, (k, v) :: rest, out⟩
                = ⟨calls + 1, visited ++ [(k, v)], rest,
                    out ++ [sendSynPack E v.hostInfo (E.toLocal8Bit k)]⟩ := by
              simp [sweepStep, hexp, hst]
            rw [sweepIter, hstep] at hs ⊢
            obtain ⟨h1, h2, h3⟩ := ih _ hs
            refine ⟨?_, ?_, ?_⟩
            · rw [h1]; simp [hexp]
            · rw [h2]; simp [sweepOutput, visitOutput, hexp, hst]
            · intro e he hne
              rcases List.mem_cons.mp he with rfl | he
              · exact hst
              · exact h3 e he hne
          · exfalso
            have hstuck := sweepIter_stuck E now mTimeout k v hexp hst (n + 1)
              ⟨calls, visited, (k, v) :: rest, out⟩ rest rfl
            rw [hstuck] at hs
            simp at hs

/-- Under a clock that stands still, when no entry is unexpired with a status
other than `OPERATION_SYN`, the loop exits within as many evaluations as there
are entries left. -/
theorem sweepIter_exits (E : Env) (now mTimeout : Int) :
    ∀ (rest : SessionMap) (calls : Nat) (visited : SessionMap) (out : List Effect),
      (∀ e ∈ rest, expired E now mTimeout e.2 = false → e.2.status = E.OPERATION_SYN) →
      (sweepIter E (fun _ => now) mTimeout rest.length ⟨calls, visited, rest, out⟩).rest
        = [] := by
  intro rest
  induction rest with
  | nil => intro calls visited out _; rfl
  | cons e rest ih =>
    intro calls visited out h
    obtain ⟨k, v⟩ := e
    have hrest : ∀ e ∈ rest, expired E now mTimeout e.2 = false →
        e.2.status = E.OPERATION_SYN := fun e he => h e (List.mem_cons_of_mem _ he)
    by_cases hexp : expired E now mTimeout v = true
    · have hstep : sweepStep E (fun _ => now) mTimeout ⟨calls, visited, (k, v) :: rest, out⟩
          = ⟨calls + 1, visited, rest,
              out ++ [Effect.onStartSessionFailed k v.sessionName v.hostInfo]⟩ := by
        simp [sweepStep, hexp]
      rw [List.length_cons, sweepIter, hstep]
      exact ih _ _ _ hrest
    · have hexp : expired E now mTimeout v = false := by simpa using hexp
      have hst : v.status = E.OPERATION_SYN := h (k, v) (List.mem_cons_self _ _) hexp
      have hstep : sweepStep E (fun _ => now) mTimeout ⟨calls, visited, (k, v) :: rest, out⟩
          = ⟨calls + 1, visited ++ [(k, v)], rest,
              out ++ [sendSynPack E v.hostInfo (E.toLocal8Bit k)]⟩ := by
        simp [sweepStep, hexp, hst]
      rw [List.length_cons, sweepIter, hstep]
      exact ih _ _ _ hrest

/-- The failed signals of two traces in sequence. -/
theorem failedSignals_append (a b : List Effect) :
    failedSignals (a ++ b) = failedSignals a ++ failedSignals b := by
  induction a with
  | nil => rfl
  | cons x a ih => cases x <;> simp [failedSignals, ih]

/-- The failed signals of one visit per entry: one per expired entry, in
iteration order, carrying the stored name and hostInfo. -/
theorem failedSignals_sweepOutput (E : Env) (now mTimeout : Int) (m : SessionMap) :
    failedSignals (sweepOutput E now mTimeout m)
      = (m.filter (fun e => expired E now mTimeout e.2)).map
          (fun e => (e.1, e.2.sessionName, e.2.hostInfo)) := by
  induction m with
  | nil => rfl
  | cons e m ih =>
    obtain ⟨k, v⟩ := e
    rw [sweepOutput, failedSignals_append, ih]
    by_cases hexp : expired E now mTimeout v = true
    · simp [visitOutput, hexp, failedSignals]
    · have hexp : expired E now mTimeout v = false := by simpa using hexp
      by_cases hst : v.status = E.OPERATION_SYN
      · simp [visitOutput, hexp, hst, failedSignals, sendSynPack]
      · simp [visitOutput, hexp, hst, failedSignals]

/-- What `handleTimeoutSessions` returns under a clock that stands still, when
it returns. -/
theorem handleTimeoutSessions_exit (E : Env) (now : Int) (fuel : Nat) (st st1 : State)
    (out : List Effect)
    (h : handleTimeoutSessions E (fun _ => now) fuel st = some (st1, out)) :
    st1 = { st with mSessionMap :=
              st.mSessionMap.filter (fun e => !expired E now st.mTimeout e.2) } ∧
    out = sweepOutput E now st.mTimeout st.mSessionMap ∧
    ∀ e ∈ st.mSessionMap, expired E now st.mTimeout e.2 = false →
      e.2.status = E.OPERATION_SYN := by
  unfold handleTimeoutSessions at h
  simp only at h
  split at h
  · next hrest =>
    obtain ⟨h1, h2, h3⟩ := sweepIter_exit E now st.mTimeout fuel (sweepStart st) hrest
    simp only [Option.some.injEq, Prod.mk.injEq] at h
    obtain ⟨hst, hout⟩ := h
    refine ⟨?_, ?_, h3⟩
    · rw [← hst, h1]; simp [sweepStart]
    · rw [← hout, h2]; simp [sweepStart]
  · cases h

/-- A failed signal is in the list read off a trace exactly when it is in the
trace. -/
theorem mem_failedSignals (k name : QString) (h : HostInfo) (out : List Effect) :
    (k, name, h) ∈ failedSignals out ↔ Effect.onStartSessionFailed k name h ∈ out := by
  induction out with
  | nil => simp [failedSignals]
  | cons x out ih => cases x <;> simp [failedSignals, ih]

/-- C5 (the code at the failing input): the registry holds the entry [65],
acknowledged and unexpired, and behind it the entry [66], unexpired and still
awaiting its ACK. While the clock reads 100 the sweep stays at [65]: after any
number of loop evaluations it has written no datagram, so no SYN for [66], and
it has not returned. -/
theorem C5_no_syn_behind_acked_entry :
    (∀ n : Nat,
      datagramsSent
        (sweepIter sampleEnv (fun _ => 100) 10000 n
          (sweepStart (sampleState [([65], sampleInfo 100 2), ([66], sampleInfo 100 1)]))).out
        = []) ∧
    (∀ fuel : Nat,
      handleTimeoutSessions sampleEnv (fun _ => 100) fuel
        (sampleState [([65], sampleInfo 100 2), ([66], sampleInfo 100 1)]) = none) ∧
    expired sampleEnv 100 10000 (sampleInfo 100 1) = false ∧
    (sampleInfo 100 1).status = sampleEnv.OPERATION_SYN := by
  have h := fun n => sweepIter_stuck sampleEnv 100 10000 [65] (sampleInfo 100 2) (by decide)
    (by decide) n
    (sweepStart (sampleState [([65], sampleInfo 100 2), ([66], sampleInfo 100 1)]))
    [([66], sampleInfo 100 1)] rfl
  refine ⟨?_, ?_, by decide, by decide⟩
  · intro n
    rw [h n]
    rfl
  · intro fuel
    have hf := h fuel
    simp only [handleTimeoutSessions, sampleState] at hf ⊢
    rw [hf]
    rfl

/-! ## The map operations -/

/-- After the status write the entry of `k` is the old one with the new
status. -/
theorem mapFind_mapSetStatus_self (k : QString) (s : Int) (v : SessionInfo) :
    ∀ m : SessionMap, mapFind k m = some v →
      mapFind k (mapSetStatus k s m) = some { v with status := s } := by
  intro m
  induction m with
  | nil => intro h; simp [mapFind] at h
  | cons e m ih =>
    obtain ⟨k1, v1⟩ := e
    intro h
    by_cases hk : k = k1
    · subst hk
      simp only [mapFind, if_true] at h
      cases h
      simp [mapSetStatus, mapFind]
    · simp only [mapFind, if_neg hk] at h
      simp [mapSetStatus, mapFind, hk, ih h]

/-- The status write leaves the entries of all other keys as they were. -/
theorem mapFind_mapSetStatus_ne (k k2 : QString) (s : Int) (hne : k2 ≠ k) :
    ∀ m : SessionMap, mapFind k2 (mapSetStatus k s m) = mapFind k2 m := by
  intro m
  induction m with
  | nil => rfl
  | cons e m ih =>
    obtain ⟨k1, v1⟩ := e
    by_cases hk : k = k1
    · subst hk
      simp [mapSetStatus, mapFind, hne]
    · by_cases hk2 : k2 = k1
      · simp [mapSetStatus, mapFind, hk, hk2]
      · simp [mapSetStatus, mapFind, hk, hk2, ih]

/-- The status write leaves the keys as they were. -/
theorem mapKeys_mapSetStatus (k : QString) (s : Int) :
    ∀ m : SessionMap, mapKeys (mapSetStatus k s m) = mapKeys m := by
  intro m
  induction m with
  | nil => rfl
  | cons e m ih =>
    obtain ⟨k1, v1⟩ := e
    by_cases hk : k = k1
    · simp [mapSetStatus, mapKeys, hk]
    · simp only [mapKeys] at ih
      simp [mapSetStatus, mapKeys, hk, ih]

/-- A key that is found is one of the keys. -/
theorem mem_mapKeys_of_mapFind (k : QString) (v : SessionInfo) :
    ∀ m : SessionMap, mapFind k m = some v → (k, v) ∈ m := by
  intro m
  induction m with
  | nil => intro h; simp [mapFind] at h
  | cons e m ih =>
    obtain ⟨k1, v1⟩ := e
    intro h
    by_cases hk : k = k1
    · subst hk
      simp only [mapFind, if_true] at h
      cases h
      exact List.mem_cons_self _ _
    · simp only [mapFind, if_neg hk] at h
      exact List.mem_cons_of_mem _ (ih h)

/-- A key that is not found is none of the keys. -/
theorem not_mem_mapKeys_of_mapFind_none (k : QString) :
    ∀ m : SessionMap, mapFind k m = none → k ∉ mapKeys m := by
  intro m
  induction m with
  | nil => intro _; simp [mapKeys]
  | cons e m ih =>
    obtain ⟨k1, v1⟩ := e
    intro h
    by_cases hk : k = k1
    · simp [mapFind, hk] at h
    · simp only [mapFind, if_neg hk] at h
      have := ih h
      simp only [mapKeys] at this
      simp [mapKeys, hk, this]

/-- A key that is none of the keys is not found. -/
theorem mapFind_none_of_not_mem (k : QString) :
    ∀ m : SessionMap, k ∉ mapKeys m → mapFind k m = none := by
  intro m
  induction m with
  | nil => intro _; rfl
  | cons e m ih =>
    obtain ⟨k1, v1⟩ := e
    intro h
    simp only [mapKeys, List.map_cons, List.mem_cons, not_or] at h
    simp only [mapFind, if_neg h.1]
    exact ih (by simpa [mapKeys] using h.2)

/-- Erasing a found entry: the old map is the erased entry plus the new map. -/
theorem mapErase_perm (k : QString) (v : SessionInfo) :
    ∀ m : SessionMap, mapFind k m = some v → m.Perm ((k, v) :: mapErase k m) := by
  intro m
  induction m with
  | nil => intro h; simp [mapFind] at h
  | cons e m ih =>
    obtain ⟨k1, v1⟩ := e
    intro h
    by_cases hk : k = k1
    · subst hk
      simp only [mapFind, if_true] at h
      cases h
      simp [mapErase]
    · simp only [mapFind, if_neg hk] at h
      simp only [mapErase, if_neg hk]
      exact ((ih h).cons (k1, v1)).trans (List.Perm.swap _ _ _)

/-- Erasing keeps the remaining entries in their order. -/
theorem mapErase_sublist (k : QString) :
    ∀ m : SessionMap, (mapErase k m).Sublist m := by
  intro m
  induction m with
  | nil => exact List.Sublist.slnil
  | cons e m ih =>
    obtain ⟨k1, v1⟩ := e
    by_cases hk : k = k1
    · simp only [mapErase, if_pos hk]
      exact List.sublist_cons_self _ _
    · simp only [mapErase, if_neg hk]
      exact ih.cons₂ _

/-- Erasing leaves the entries of all other keys as they were. -/
theorem mapFind_mapErase_ne (k k2 : QString) (hne : k2 ≠ k) :
    ∀ m : SessionMap, mapFind k2 (mapErase k m) = mapFind k2 m := by
  intro m
  induction m with
  | nil => rfl
  | cons e m ih =>
    obtain ⟨k1, v1⟩ := e
    by_cases hk : k = k1
    · subst hk
      simp [mapErase, mapFind, hne]
    · by_cases hk2 : k2 = k1
      · simp [mapErase, mapFind, hk, hk2]
      · simp [mapErase, mapFind, hk, hk2, ih]

/-- The keys after erasing are the keys with the first occurrence of `k`
removed. -/
theorem mapKeys_mapErase (k : QString) :
    ∀ m : SessionMap, mapKeys (mapErase k m) = (mapKeys m).erase k := by
  intro m
  induction m with
  | nil => rfl
  | cons e m ih =>
    obtain ⟨k1, v1⟩ := e
    by_cases hk : k = k1
    · subst hk
      simp [mapErase, mapKeys]
    · have hk1 : ¬ k1 = k := fun h => hk h.symm
      simp only [mapKeys] at ih
      simp [mapErase, mapKeys, hk, ih, List.erase_cons_tail, hk1]

/-- Assigning to an absent key: the new map is the new entry plus the old
map. -/
theorem mapAssign_perm (k : QString) (v : SessionInfo) :
    ∀ m : SessionMap, mapFind k m = none → (mapAssign k v m).Perm ((k, v) :: m) := by
  intro m
  induction m with
  | nil => intro _; simp [mapAssign]
  | cons e m ih =>
    obtain ⟨k1, v1⟩ := e
    intro h
    by_cases hk : k = k1
    · simp [mapFind, hk] at h
    · simp only [mapFind, if_neg hk] at h
      simp only [mapAssign, if_neg hk]
      by_cases hlt : qstringLess k k1 = true
      · simp [hlt]
      · simp only [hlt]
        exact ((ih h).cons (k1, v1)).trans (List.Perm.swap _ _ _)

/-- Assigning to an absent key keeps the old entries in their order. -/
theorem mapAssign_sublist (k : QString) (v : SessionInfo) :
    ∀ m : SessionMap, mapFind k m = none → m.Sublist (mapAssign k v m) := by
  intro m
  induction m with
  | nil => intro _; simp [mapAssign]
  | cons e m ih =>
    obtain ⟨k1, v1⟩ := e
    intro h
    by_cases hk : k = k1
    · simp [mapFind, hk] at h
    · simp only [mapFind, if_neg hk] at h
      simp only [mapAssign, if_neg hk]
      by_cases hlt : qstringLess k k1 = true
      · simp [hlt]
      · simp only [hlt]
        exact (ih h).cons₂ _

/-- After the assignment the entry of `k` is the assigned one. -/
theorem mapFind_mapAssign_self (k : QString) (v : SessionInfo) :
    ∀ m : SessionMap, mapFind k (mapAssign k v m) = some v := by
  intro m
  induction m with
  | nil => simp [mapAssign, mapFind]
  | cons e m ih =>
    obtain ⟨k1, v1⟩ := e
    by_cases hk : k = k1
    · simp [mapAssign, mapFind, hk]
    · by_cases hlt : qstringLess k k1 = true
      · simp [mapAssign, mapFind, hk, hlt]
      · simp [mapAssign, mapFind, hk, hlt, ih]

/-- The assignment leaves the entries of all other keys as they were. -/
theorem mapFind_mapAssign_ne (k k2 : QString) (v : SessionInfo) (hne : k2 ≠ k) :
    ∀ m : SessionMap, mapFind k2 (mapAssign k v m) = mapFind k2 m := by
  intro m
  induction m with
  | nil => simp [mapAssign, mapFind, hne]
  | cons e m ih =>
    obtain ⟨k1, v1⟩ := e
    by_cases hk : k = k1
    · subst hk
      simp [mapAssign, mapFind, hne]
    · by_cases hlt : qstringLess k k1 = true
      · simp [mapAssign, mapFind, hk, hlt, hne]
      · by_cases hk2 : k2 = k1
        · simp [mapAssign, mapFind, hk, hlt, hk2]
        · simp [mapAssign, mapFind, hk, hlt, hk2, ih]

/-! ## The datagram handler: ACK -/

/-- What `onRecvFrom` does with an ACK datagram, by the three cases of its
lookup. -/
theorem onRecvFrom_ack (E : Env) (st : State) (datagram : QByteArray) (host : QHostAddress)
    (port : Nat) (hsig : readShort datagram 0 = E.SIGNATURE)
    (hop : readShort datagram 2 = E.OPERATION_ACK) :
    onRecvFrom E st datagram host port =
      match mapFind (E.toQString (removeFront 4 datagram)) st.mSessionMap with
      | none => (st, [])
      | some info =>
        if info.status = E.OPERATION_SYN then
          ({ st with
              mSessionMap :=
                mapSetStatus (E.toQString (removeFront 4 datagram)) E.OPERATION_ACK
                  st.mSessionMap },
            [Effect.writeDatagram (directivePack E info.hostInfo (removeFront 4 datagram))
              info.hostInfo.addr info.hostInfo.port])
        else (st, []) := by
  simp [onRecvFrom, hsig, hop]

/-- A `short` is written as two bytes. -/
theorem putShort_length (x : Int) : (putShort x).length = 2 := rfl

/-- Reading back the two bytes written for `x` gives `x` converted to
`short`, whatever follows them. -/
theorem readShort_putShort (x : Int) (tail : QByteArray) :
    readShort (putShort x ++ tail) 0 = toShort x := by
  simp only [readShort, putShort, List.drop_zero, List.cons_append, List.nil_append,
    Fin.ofNat, toShort]
  have h0 : 0 ≤ x % 65536 := Int.emod_nonneg _ (by decide)
  have h1 : x % 65536 < 65536 := Int.emod_lt_of_pos _ (by decide)
  have hn : ((x % 65536).toNat : Int) = x % 65536 := Int.toNat_of_nonneg h0
  push_cast
  omega

/-- C7 (as stated, refuted): the directive emitted after the ACK for the
3-byte token [65,66,67] is 7 bytes long: signature, opcode, token, with no
listenPort field. The directive decoder (a 2-byte listenPort at offset 4, the
token from offset 6) reads the first two token bytes as listenPort 16706 and
recovers [67], not the token. -/
theorem C7_directive_has_no_listenPort :
    (onRecvFrom sampleEnv (sampleState [([65, 66, 67], sampleInfo 100 1)])
        [18, 52, 0, 2, 65, 66, 67] 9 4000).2
      = [Effect.writeDatagram [18, 52, 0, 4, 65, 66, 67] sampleHost.addr sampleHost.port] ∧
    ([18, 52, 0, 4, 65, 66, 67] : QByteArray)
      ≠ putShort sampleEnv.SIGNATURE ++ putShort sampleEnv.OPERATION_CONNECT_HOST
          ++ putShort (readShort [18, 52, 0, 4, 65, 66, 67] 4) ++ [65, 66, 67] ∧
    ([18, 52, 0, 4, 65, 66, 67] : QByteArray).length = 4 + 3 ∧
    readShort [18, 52, 0, 4, 65, 66, 67] 4 = 16706 ∧
    removeFront 6 [18, 52, 0, 4, 65, 66, 67] = [67] ∧
    removeFront 6 [18, 52, 0, 4, 65, 66, 67] ≠ ([65, 66, 67] : QByteArray) := by
  decide

/-- C7 (amended): the directive datagram emitted after a successful ACK for
token `t` is the 2-byte signature, the 2-byte opcode (CONNECT_HOST when the
stored mode is REFLECT_CONNECT, else LISTEN_HOST), then the bytes of `t`, and
nothing else: its length is 4 + |t|, the two header fields read back as the
signature and the opcode converted to `short`, and dropping the 4 header bytes
recovers exactly `t`. The directive decoder, which reads a listenPort at offset 4
and takes the bytes from offset 6 as the token, reads the first two bytes of `t`
as listenPort and recovers `t` without its first two bytes. -/
theorem C7_directive_layout (E : Env) (st : State) (datagram : QByteArray)
    (host : QHostAddress) (port : Nat) (info : SessionInfo)
    (hsig : readShort datagram 0 = E.SIGNATURE)
    (hop : readShort datagram 2 = E.OPERATION_ACK)
    (hfind : mapFind (E.toQString (removeFront 4 datagram)) st.mSessionMap = some info)
    (hst : info.status = E.OPERATION_SYN) :
    ∃ d : QByteArray,
      (onRecvFrom E st datagram host port).2
        = [Effect.writeDatagram d info.hostInfo.addr info.hostInfo.port] ∧
      d = putShort E.SIGNATURE
            ++ putShort (toShort (if info.hostInfo.mode = E.REFLECT_CONNECT
                then E.OPERATION_CONNECT_HOST else E.OPERATION_LISTEN_HOST))
            ++ removeFront 4 datagram ∧
      d.length = 4 + (removeFront 4 datagram).length ∧
      readShort d 0 = toShort E.SIGNATURE ∧
      readShort d 2 = toShort (if info.hostInfo.mode = E.REFLECT_CONNECT
                then E.OPERATION_CONNECT_HOST else E.OPERATION_LISTEN_HOST) ∧
      removeFront 4 d = removeFront 4 datagram ∧
      readShort d 4 = readShort (removeFront 4 datagram) 0 ∧
      removeFront 6 d = (removeFront 4 datagram).drop 2 := by
  refine ⟨directivePack E info.hostInfo (removeFront 4 datagram), ?_, rfl, ?_, ?_, ?_, ?_, ?_,
    ?_⟩
  · rw [onRecvFrom_ack E st datagram host port hsig hop, hfind]
    simp [hst]
  · simp [directivePack, putShort_length]
    omega
  · rw [directivePack, List.append_assoc]
    exact readShort_putShort _ _
  · have h := readShort_putShort (toShort (directiveOpcode E info.hostInfo))
      (removeFront 4 datagram)
    have htt : ∀ x : Int, toShort (toShort x) = toShort x := by
      intro x
      simp only [toShort]
      omega
    rw [htt] at h
    show readShort (directivePack E info.hostInfo (removeFront 4 datagram)) 2
      = toShort (directiveOpcode E info.hostInfo)
    rw [← h]
    rfl
  · rfl
  · rfl
  · rfl

/-- Witness of `C7_directive_layout`: the ACK for the token [65,66,67]. -/
theorem C7_directive_layout_witness :
    ∃ d : QByteArray,
      (onRecvFrom sampleEnv (sampleState [([65, 66, 67], sampleInfo 100 1)])
          [18, 52, 0, 2, 65, 66, 67] 9 4000).2
        = [Effect.writeDatagram d sampleHost.addr sampleHost.port] ∧
      d = putShort 4660 ++ putShort (toShort 4) ++ [65, 66, 67] ∧
      d.length = 4 + 3 ∧
      readShort d 0 = toShort 4660 ∧
      readShort d 2 = toShort 4 ∧
      removeFront 4 d = [65, 66, 67] ∧
      readShort d 4 = readShort [65, 66, 67] 0 ∧
      removeFront 6 d = [67] :=
  C7_directive_layout sampleEnv (sampleState [([65, 66, 67], sampleInfo 100 1)])
    [18, 52, 0, 2, 65, 66, 67] 9 4000 (sampleInfo 100 1) (by decide) (by decide) (by decide)
    (by decide)

/-! ## The TCP handoff -/

/-- C8: when the first frame's key is in the registry with entry `info`,
`onNewSocket` removes that one entry (the old registry is the new one plus that
entry, the size drops by exactly 1, the other entries keep their order and
values, and with distinct keys the key is no longer found), emits exactly one
started signal carrying the stored name and hostInfo, writes exactly one reply
frame holding the stored name, and hands over the session built from the stored
hostInfo, name and data; nothing else in the state changes. -/
theorem C8_handoff_consumes_entry (E : Env) (st : State) (data : QByteArray)
    (info : SessionInfo)
    (hfind : mapFind (E.toQString data) st.mSessionMap = some info) :
    (onNewSocket E st data).1.mSessionMap.length + 1 = st.mSessionMap.length ∧
    st.mSessionMap.Perm ((E.toQString data, info) :: (onNewSocket E st data).1.mSessionMap) ∧
    (onNewSocket E st data).1.mSessionMap.Sublist st.mSessionMap ∧
    (∀ k, k ≠ E.toQString data →
      mapFind k (onNewSocket E st data).1.mSessionMap = mapFind k st.mSessionMap) ∧
    ((mapKeys st.mSessionMap).Nodup →
      mapFind (E.toQString data) (onNewSocket E st data).1.mSessionMap = none) ∧
    (onNewSocket E st data).2
      = [Effect.disconnectSlots,
         Effect.onStartSessionSuccess (E.toQString data) info.sessionName info.hostInfo,
         Effect.writeDataPack (E.toLocal8Bit info.sessionName),
         Effect.dataPackDeleteLater,
         Effect.handleSession
           { hostInfo := info.hostInfo, sessionName := info.sessionName,
             sessionData := info.sessionData }] ∧
    (onNewSocket E st data).1.mTimeout = st.mTimeout ∧
    (onNewSocket E st data).1.mHostPool = st.mHostPool ∧
    (onNewSocket E st data).1.mIsStart = st.mIsStart := by
  have hrun : onNewSocket E st data
      = ({ st with mSessionMap := mapErase (E.toQString data) st.mSessionMap },
          [Effect.disconnectSlots,
           Effect.onStartSessionSuccess (E.toQString data) info.sessionName info.hostInfo,
           Effect.writeDataPack (E.toLocal8Bit info.sessionName),
           Effect.dataPackDeleteLater,
           Effect.handleSession
             { hostInfo := info.hostInfo, sessionName := info.sessionName,
               sessionData := info.sessionData }]) := by
    simp [onNewSocket, hfind]
  have hperm := mapErase_perm (E.toQString data) info st.mSessionMap hfind
  rw [hrun]
  refine ⟨?_, hperm, mapErase_sublist _ _, ?_, ?_, rfl, rfl, rfl, rfl⟩
  · have := hperm.length_eq
    simp only [List.length_cons] at this
    exact this.symm
  · intro k hk
    exact mapFind_mapErase_ne _ k hk _
  · intro hnodup
    apply mapFind_none_of_not_mem
    simp only [mapKeys_mapErase]
    exact fun hmem => (List.Nodup.mem_erase_iff hnodup).mp hmem |>.1 rfl

/-- Witness of `C8_handoff_consumes_entry`: the frame [66] while the registry
holds the entries of [65] and [66]. -/
theorem C8_handoff_consumes_entry_witness :
    (onNewSocket sampleEnv
        (sampleState [([65], sampleInfo 100 1), ([66], sampleInfo 90 2)]) [66]).1.mSessionMap
      = [([65], sampleInfo 100 1)] ∧
    (onNewSocket sampleEnv
        (sampleState [([65], sampleInfo 100 1), ([66], sampleInfo 90 2)]) [66]).2
      = [Effect.disconnectSlots,
         Effect.onStartSessionSuccess [66] [97] sampleHost,
         Effect.writeDataPack [97],
         Effect.dataPackDeleteLater,
         Effect.handleSession
           { hostInfo := sampleHost, sessionName := [97], sessionData := 7 }] :=
  ⟨by decide,
   (C8_handoff_consumes_entry sampleEnv
      (sampleState [([65], sampleInfo 100 1), ([66], sampleInfo 90 2)]) [66]
      (sampleInfo 90 2) (by decide)).2.2.2.2.2.1⟩

/-- C10: for a hostInfo in mode REFLECT_CONNECT and a generated uuid whose key
is not in the registry, `startSession` adds exactly one entry (the new registry
is the old one plus that entry, the size grows by exactly 1, the old entries
keep their order and values); the new entry has status `OPERATION_SYN`,
createTime `now` and the given hostInfo, name and data; the only effect is one
SYN datagram (signature, SYN opcode, uuid bytes) to the hostInfo's address and
port; nothing else in the state changes. -/
theorem C10_startSession_creates_entry (E : Env) (st : State) (hostInfo : HostInfo)
    (sessionName : QString) (sessionData : QVariant) (now : Int) (sessionUuid : QByteArray)
    (hmode : hostInfo.mode = E.REFLECT_CONNECT)
    (hfresh : mapFind (E.toQString sessionUuid) st.mSessionMap = none) :
    (startSession E st hostInfo sessionName sessionData now sessionUuid).1.mSessionMap.length
      = st.mSessionMap.length + 1 ∧
    mapFind (E.toQString sessionUuid)
        (startSession E st hostInfo sessionName sessionData now sessionUuid).1.mSessionMap
      = some { sessionData := sessionData, sessionName := sessionName, hostInfo := hostInfo,
               createTime := now, status := E.OPERATION_SYN } ∧
    (∀ k, k ≠ E.toQString sessionUuid →
      mapFind k (startSession E st hostInfo sessionName sessionData now sessionUuid).1.mSessionMap
        = mapFind k st.mSessionMap) ∧
    (startSession E st hostInfo sessionName sessionData now sessionUuid).1.mSessionMap.Perm
      ((E.toQString sessionUuid,
        { sessionData := sessionData, sessionName := sessionName, hostInfo := hostInfo,
          createTime := now, status := E.OPERATION_SYN }) :: st.mSessionMap) ∧
    st.mSessionMap.Sublist
      (startSession E st hostInfo sessionName sessionData now sessionUuid).1.mSessionMap ∧
    (startSession E st hostInfo sessionName sessionData now sessionUuid).2
      = [Effect.writeDatagram
          (putShort E.SIGNATURE ++ putShort (toShort E.OPERATION_SYN) ++ sessionUuid)
          hostInfo.addr hostInfo.port] ∧
    (startSession E st hostInfo sessionName sessionData now sessionUuid).1.mTimeout
      = st.mTimeout ∧
    (startSession E st hostInfo sessionName sessionData now sessionUuid).1.mHostPool
      = st.mHostPool ∧
    (startSession E st hostInfo sessionName sessionData now sessionUuid).1.mIsStart
      = st.mIsStart := by
  have hrun : startSession E st hostInfo sessionName sessionData now sessionUuid
      = ({ st with
            mSessionMap :=
              mapAssign (E.toQString sessionUuid)
                { sessionData := sessionData, sessionName := sessionName,
                  hostInfo := hostInfo, createTime := now, status := E.OPERATION_SYN }
                st.mSessionMap },
          [sendSynPack E hostInfo sessionUuid]) := by
    simp [startSession, hmode]
  have hperm := mapAssign_perm (E.toQString sessionUuid)
    { sessionData := sessionData, sessionName := sessionName, hostInfo := hostInfo,
      createTime := now, status := E.OPERATION_SYN } st.mSessionMap hfresh
  rw [hrun]
  refine ⟨?_, mapFind_mapAssign_self _ _ _, ?_, hperm, mapAssign_sublist _ _ _ hfresh, rfl,
    rfl, rfl, rfl⟩
  · have := hperm.length_eq
    simpa using this
  · intro k hk
    exact mapFind_mapAssign_ne _ k _ hk _

/-- Witness of `C10_startSession_creates_entry`: a session for `sampleHost`
with uuid [66] at second 200, the registry holding the entries of [65] and
[67]. -/
theorem C10_startSession_creates_entry_witness :
    startSession sampleEnv
        (sampleState [([65], sampleInfo 100 1), ([67], sampleInfo 90 2)])
        sampleHost [98] 3 200 [66]
      = (sampleState [([65], sampleInfo 100 1),
            ([66], { sessionData := 3, sessionName := [98], hostInfo := sampleHost,
                     createTime := 200, status := 1 }),
            ([67], sampleInfo 90 2)],
          [Effect.writeDatagram [18, 52, 0, 1, 66] sampleHost.addr sampleHost.port]) ∧
    (startSession sampleEnv
        (sampleState [([65], sampleInfo 100 1), ([67], sampleInfo 90 2)])
        sampleHost [98] 3 200 [66]).1.mSessionMap.length = 2 + 1 :=
  ⟨by decide,
   (C10_startSession_creates_entry sampleEnv
      (sampleState [([65], sampleInfo 100 1), ([67], sampleInfo 90 2)])
      sampleHost [98] 3 200 [66] (by decide) (by decide)).1⟩

/-! ## Runs: at most one session signal per entry -/

/-- The session signals of two traces in sequence. -/
theorem terminalCount_append (k : QString) (a b : List Effect) :
    terminalCount k (a ++ b) = terminalCount k a + terminalCount k b := by
  simp [terminalCount, List.countP_append]

/-- Occurrences in two lists in sequence. -/
theorem occurrences_append (k : QString) (a b : List QString) :
    occurrences k (a ++ b) = occurrences k a + occurrences k b := by
  induction a with
  | nil => simp [occurrences]
  | cons x a ih => simp [occurrences, ih, Nat.add_assoc]

/-- A key that occurs is a member. -/
theorem mem_of_occurrences_pos (k : QString) :
    ∀ l : List QString, 1 ≤ occurrences k l → k ∈ l := by
  intro l
  induction l with
  | nil => intro h; simp [occurrences] at h
  | cons x l ih =>
    intro h
    by_cases hx : x = k
    · simp [hx]
    · simp only [occurrences, if_neg hx, Nat.zero_add] at h
      exact List.mem_cons_of_mem _ (ih h)

/-- A key that is no member does not occur. -/
theorem occurrences_eq_zero (k : QString) :
    ∀ l : List QString, k ∉ l → occurrences k l = 0 := by
  intro l hl
  by_contra h
  exact hl (mem_of_occurrences_pos k l (Nat.one_le_iff_ne_zero.mpr h))

/-- In a list without repetition every key occurs at most once. -/
theorem occurrences_le_one (k : QString) :
    ∀ l : List QString, l.Nodup → occurrences k l ≤ 1 := by
  intro l
  induction l with
  | nil => intro _; simp [occurrences]
  | cons x l ih =>
    intro h
    rw [List.nodup_cons] at h
    by_cases hx : x = k
    · subst hx
      simp [occurrences, occurrences_eq_zero x l h.1]
    · simp only [occurrences, if_neg hx, Nat.zero_add]
      exact ih h.2

/-- One loop evaluation moves the key under the iterator to the visited keys
or to the keys reported as failed, or leaves everything in place. -/
theorem sweepStep_keys (E : Env) (clock : Nat → Int) (mTimeout : Int) (s : SweepState)
    (removed : List QString) (hcount : ∀ k, terminalCount k s.out = occurrences k removed) :
    ∃ removed1 : List QString,
      (mapKeys (sweepStep E clock mTimeout s).visited ++ removed1
          ++ mapKeys (sweepStep E clock mTimeout s).rest).Perm
        (mapKeys s.visited ++ removed ++ mapKeys s.rest) ∧
      ∀ k, terminalCount k (sweepStep E clock mTimeout s).out = occurrences k removed1 := by
  cases s with
  | mk calls visited rest out =>
    cases rest with
    | nil => exact ⟨removed, List.Perm.refl _, hcount⟩
    | cons e rest =>
      obtain ⟨k, v⟩ := e
      simp only at hcount
      by_cases hexp : expired E (clock calls) mTimeout v = true
      · refine ⟨removed ++ [k], ?_, ?_⟩
        · simp [sweepStep, hexp, mapKeys]
        · intro k2
          simp only [sweepStep, hexp, if_true, terminalCount_append, hcount,
            occurrences_append]
          by_cases hk : k = k2
          · simp [terminalCount, isTerminalFor, occurrences, hk]
          · simp [terminalCount, isTerminalFor, occurrences, hk]
      · have hexp : expired E (clock calls) mTimeout v = false := by simpa using hexp
        by_cases hst : v.status = E.OPERATION_SYN
        · have hstep : sweepStep E clock mTimeout ⟨calls, visited, (k, v) :: rest, out⟩
              = ⟨calls + 1, visited ++ [(k, v)], rest,
                  out ++ [sendSynPack E v.hostInfo (E.toLocal8Bit k)]⟩ := by
            simp [sweepStep, hexp, hst]
          rw [hstep]
          refine ⟨removed, ?_, ?_⟩
          · simp only [mapKeys, List.map_append, List.map_cons, List.map_nil,
              List.append_assoc, List.singleton_append]
            exact List.Perm.append_left _ List.perm_middle.symm
          · intro k2
            simp only [terminalCount_append, hcount]
            simp [terminalCount, isTerminalFor, sendSynPack]
        · refine ⟨removed, ?_, ?_⟩
          · simp [sweepStep, hexp, hst]
          · intro k2
            simp [sweepStep, hexp, hst, hcount]

/-- After any number of loop evaluations, under any clock, the keys of the
registry are split between the entries visited and kept, the entries reported
as failed (each key as often as it was reported) and the entries not yet
visited. -/
theorem sweepIter_keys (E : Env) (clock : Nat → Int) (mTimeout : Int) :
    ∀ (n : Nat) (s : SweepState) (removed : List QString),
      (∀ k, terminalCount k s.out = occurrences k removed) →
      ∃ removed1 : List QString,
        (mapKeys (sweepIter E clock mTimeout n s).visited ++ removed1
            ++ mapKeys (sweepIter E clock mTimeout n s).rest).Perm
          (mapKeys s.visited ++ removed ++ mapKeys s.rest) ∧
        ∀ k, terminalCount k (sweepIter E clock mTimeout n s).out = occurrences k removed1 := by
  intro n
  induction n with
  | zero => intro s removed hcount; exact ⟨removed, List.Perm.refl _, hcount⟩
  | succ n ih =>
    intro s removed hcount
    obtain ⟨r1, hperm1, hcount1⟩ := sweepStep_keys E clock mTimeout s removed hcount
    obtain ⟨r2, hperm2, hcount2⟩ := ih (sweepStep E clock mTimeout s) r1 hcount1
    exact ⟨r2, hperm2.trans hperm1, hcount2⟩

/-- The sweep of a registry with distinct keys, after any number of loop
evaluations and under any clock: each key was reported as failed at most once,
the keys reported are keys of the registry and are no longer among the entries
kept or still to visit, and those entries have distinct keys from the
registry. -/
theorem sweepIter_signals (E : Env) (clock : Nat → Int) (n : Nat) (st : State)
    (hnodup : (mapKeys st.mSessionMap).Nodup) :
    (mapKeys ((sweepIter E clock st.mTimeout n (sweepStart st)).visited
        ++ (sweepIter E clock st.mTimeout n (sweepStart st)).rest)).Nodup ∧
    (∀ k ∈ mapKeys ((sweepIter E clock st.mTimeout n (sweepStart st)).visited
        ++ (sweepIter E clock st.mTimeout n (sweepStart st)).rest),
      k ∈ mapKeys st.mSessionMap) ∧
    ∀ k, terminalCount k (sweepIter E clock st.mTimeout n (sweepStart st)).out ≤ 1 ∧
      (1 ≤ terminalCount k (sweepIter E clock st.mTimeout n (sweepStart st)).out →
        k ∈ mapKeys st.mSessionMap ∧
        k ∉ mapKeys ((sweepIter E clock st.mTimeout n (sweepStart st)).visited
          ++ (sweepIter E clock st.mTimeout n (sweepStart st)).rest)) := by
  obtain ⟨removed, hperm, hcount⟩ := sweepIter_keys E clock st.mTimeout n (sweepStart st) []
    (by intro k; simp [sweepStart, terminalCount, occurrences])
  simp only [sweepStart, mapKeys, List.map_nil, List.nil_append] at hperm
  have hnd := (List.Perm.nodup_iff hperm).mpr hnodup
  have hsub : ∀ k, k ∈ (sweepIter E clock st.mTimeout n (sweepStart st)).visited.map Prod.fst
      ++ removed ++ (sweepIter E clock st.mTimeout n (sweepStart st)).rest.map Prod.fst →
      k ∈ mapKeys st.mSessionMap := fun k hk => hperm.subset hk
  rw [List.append_assoc, List.nodup_append] at hnd
  obtain ⟨hndv, hndrr, hdisj1⟩ := hnd
  rw [List.nodup_append] at hndrr
  obtain ⟨hndr, hndrest, hdisj2⟩ := hndrr
  refine ⟨?_, ?_, ?_⟩
  · simp only [mapKeys, List.map_append]
    rw [List.nodup_append]
    refine ⟨hndv, hndrest, ?_⟩
    intro a ha hb
    exact hdisj1 ha (List.mem_append_right _ hb)
  · intro k hk
    simp only [mapKeys, List.map_append, List.mem_append] at hk
    apply hsub
    simp only [List.mem_append]
    rcases hk with hk | hk
    · exact Or.inl (Or.inl hk)
    · exact Or.inr hk
  · intro k
    rw [hcount k]
    refine ⟨occurrences_le_one k removed hndr, ?_⟩
    intro hone
    have hmem : k ∈ removed := mem_of_occurrences_pos k removed hone
    refine ⟨hsub k (by simp [hmem]), ?_⟩
    simp only [mapKeys, List.map_append, List.mem_append, not_or]
    exact ⟨fun hv => hdisj1 hv (List.mem_append_left _ hmem), fun hr => hdisj2 hmem hr⟩

/-- The datagram handler never adds or removes a key and never emits a session
signal. -/
theorem onRecvFrom_keys (E : Env) (st : State) (datagram : QByteArray) (host : QHostAddress)
    (port : Nat) :
    mapKeys (onRecvFrom E st datagram host port).1.mSessionMap = mapKeys st.mSessionMap ∧
    ∀ k, terminalCount k (onRecvFrom E st datagram host port).2 = 0 := by
  unfold onRecvFrom
  simp only
  split_ifs with h1 h2 h3 h4 h5
  · simp [terminalCount]
  · split
    · simp [terminalCount]
    · split_ifs
      · simp [terminalCount, isTerminalFor, mapKeys_mapSetStatus]
      · simp [terminalCount]
  · unfold onIncomeHost
    simp only
    split_ifs <;> simp [terminalCount, isTerminalFor]
  · simp [terminalCount]
  · split <;> simp [terminalCount, isTerminalFor]
  · simp [terminalCount]

/-- What an operation that returns does to the keys of a registry with
distinct keys, the key of a started session being new: the keys stay distinct,
a key present afterwards was present before or is the started one, and every
key gets at most one session signal, a signalled key having been present before
and being gone afterwards. -/
theorem applyOp_signals (E : Env) (op : Op) (st st1 : State) (out : List Effect)
    (h : applyOp E op st = some (st1, out))
    (hnodup : (mapKeys st.mSessionMap).Nodup)
    (hnew : ∀ k ∈ startKeys E [op], k ∉ mapKeys st.mSessionMap) :
    (mapKeys st1.mSessionMap).Nodup ∧
    (∀ k ∈ mapKeys st1.mSessionMap, k ∈ mapKeys st.mSessionMap ∨ k ∈ startKeys E [op]) ∧
    ∀ k, terminalCount k out ≤ 1 ∧
      (1 ≤ terminalCount k out → k ∈ mapKeys st.mSessionMap ∧ k ∉ mapKeys st1.mSessionMap) := by
  cases op with
  | startSession hostInfo sessionName sessionData now sessionUuid =>
    simp only [applyOp, Option.some.injEq] at h
    by_cases hmode : hostInfo.mode = E.REFLECT_CONNECT
    · have hfresh : mapFind (E.toQString sessionUuid) st.mSessionMap = none :=
        mapFind_none_of_not_mem _ _ (hnew _ (by simp [startKeys]))
      have hrun : startSession E st hostInfo sessionName sessionData now sessionUuid
          = ({ st with
                mSessionMap :=
                  mapAssign (E.toQString sessionUuid)
                    { sessionData := sessionData, sessionName := sessionName,
                      hostInfo := hostInfo, createTime := now, status := E.OPERATION_SYN }
                    st.mSessionMap },
              [sendSynPack E hostInfo sessionUuid]) := by
        simp [startSession, hmode]
      rw [hrun, Prod.mk.injEq] at h
      obtain ⟨rfl, rfl⟩ := h
      have hperm := (mapAssign_perm (E.toQString sessionUuid)
        { sessionData := sessionData, sessionName := sessionName, hostInfo := hostInfo,
          createTime := now, status := E.OPERATION_SYN } st.mSessionMap hfresh).map Prod.fst
      simp only [List.map_cons] at hperm
      refine ⟨?_, ?_, ?_⟩
      · refine (List.Perm.nodup_iff hperm).mpr ?_
        rw [List.nodup_cons]
        exact ⟨hnew _ (by simp [startKeys]), hnodup⟩
      · intro k hk
        have := hperm.subset hk
        simp only [List.mem_cons] at this
        rcases this with rfl | hk
        · right; simp [startKeys]
        · left; exact hk
      · intro k
        simp [terminalCount, isTerminalFor, sendSynPack]
    · have hrun : startSession E st hostInfo sessionName sessionData now sessionUuid
          = (st, []) := by
        simp [startSession, hmode]
      rw [hrun, Prod.mk.injEq] at h
      obtain ⟨rfl, rfl⟩ := h
      exact ⟨hnodup, fun k hk => Or.inl hk, fun k => by simp [terminalCount]⟩
  | recvFrom datagram host port =>
    simp only [applyOp, Option.some.injEq] at h
    obtain ⟨hkeys, hcount⟩ := onRecvFrom_keys E st datagram host port
    rw [h] at hkeys hcount
    simp only at hkeys hcount
    refine ⟨by rw [hkeys]; exact hnodup, fun k hk => Or.inl (by rw [← hkeys]; exact hk), ?_⟩
    intro k
    rw [hcount k]
    simp
  | newSocket data =>
    simp only [applyOp, Option.some.injEq] at h
    cases hfind : mapFind (E.toQString data) st.mSessionMap with
    | none =>
      have hrun : onNewSocket E st data = (st, [Effect.disconnectSlots, Effect.socketClose]) := by
        simp [onNewSocket, hfind]
      rw [hrun, Prod.mk.injEq] at h
      obtain ⟨rfl, rfl⟩ := h
      exact ⟨hnodup, fun k hk => Or.inl hk, fun k => by simp [terminalCount, isTerminalFor]⟩
    | some info =>
      have hrun : onNewSocket E st data
          = ({ st with mSessionMap := mapErase (E.toQString data) st.mSessionMap },
              [Effect.disconnectSlots,
               Effect.onStartSessionSuccess (E.toQString data) info.sessionName info.hostInfo,
               Effect.writeDataPack (E.toLocal8Bit info.sessionName),
               Effect.dataPackDeleteLater,
               Effect.handleSession
                 { hostInfo := info.hostInfo, sessionName := info.sessionName,
                   sessionData := info.sessionData }]) := by
        simp [onNewSocket, hfind]
      rw [hrun, Prod.mk.injEq] at h
      obtain ⟨rfl, rfl⟩ := h
      simp only [mapKeys_mapErase]
      refine ⟨hnodup.erase _, fun k hk => Or.inl (List.mem_of_mem_erase hk), ?_⟩
      intro k
      by_cases hk : E.toQString data = k
      · subst hk
        refine ⟨by simp [terminalCount, isTerminalFor], fun _ => ⟨?_, ?_⟩⟩
        · have := mem_mapKeys_of_mapFind _ _ _ hfind
          exact List.mem_map.mpr ⟨_, this, rfl⟩
        · exact fun hmem => ((List.Nodup.mem_erase_iff hnodup).mp hmem).1 rfl
      · simp [terminalCount, isTerminalFor, hk]
  | timeout clock fuel =>
    simp only [applyOp, onTimeout, handleTimeoutSessions] at h
    obtain ⟨hnd, hsub, hcount⟩ := sweepIter_signals E clock fuel st hnodup
    split at h
    · cases h
    · next st2 out2 heq =>
      split at heq
      · next hrest =>
        rw [hrest, List.append_nil] at hnd hsub hcount
        simp only [Option.some.injEq, Prod.mk.injEq] at heq h
        obtain ⟨rfl, rfl⟩ := heq
        obtain ⟨rfl, rfl⟩ := h
        refine ⟨hnd, fun k hk => Or.inl (hsub k hk), ?_⟩
        intro k
        have hpool : ∀ l : List Effect, terminalCount k (l ++
            (if (st.mHostPool.length ≠ (E.cleanTimeoutItem st.mHostPool).length)
              then [Effect.onHostPoolChange] else [])) = terminalCount k l := by
          intro l
          rw [terminalCount_append]
          split_ifs <;> simp [terminalCount, isTerminalFor]
        simp only [hpool]
        exact hcount k
      · cases heq
  | stop =>
    simp only [applyOp, stop, Option.some.injEq, Prod.mk.injEq] at h
    obtain ⟨rfl, rfl⟩ := h
    exact ⟨by simp [mapKeys], by simp [mapKeys], fun k => by simp [terminalCount, isTerminalFor]⟩

/-- What an operation that has not returned has emitted: at most one session
signal per key, and only for keys of the registry. -/
theorem partialEffects_signals (E : Env) (op : Op) (st : State)
    (hnodup : (mapKeys st.mSessionMap).Nodup) (k : QString) :
    terminalCount k (partialEffects E op st) ≤ 1 ∧
    (1 ≤ terminalCount k (partialEffects E op st) → k ∈ mapKeys st.mSessionMap) := by
  cases op with
  | timeout clock fuel =>
    obtain ⟨_, _, hcount⟩ := sweepIter_signals E clock fuel st hnodup
    exact ⟨(hcount k).1, fun h => ((hcount k).2 h).1⟩
  | startSession hostInfo sessionName sessionData now sessionUuid =>
    simp [partialEffects, terminalCount]
  | recvFrom datagram host port => simp [partialEffects, terminalCount]
  | newSocket data => simp [partialEffects, terminalCount]
  | stop => simp [partialEffects, terminalCount]

/-- The keys started by a run are the key started by its first operation and
the keys started by the rest. -/
theorem startKeys_cons (E : Env) (op : Op) (ops : List Op) :
    startKeys E (op :: ops) = startKeys E [op] ++ startKeys E ops := by
  cases op <;> simp [startKeys]

/-- Runs from a registry with distinct keys, the started keys being distinct
and new: every key gets at most one session signal, and a key that is neither
in the registry nor started gets none. -/
theorem runOps_signals (E : Env) :
    ∀ (ops : List Op) (st : State), (mapKeys st.mSessionMap).Nodup →
      (startKeys E ops).Nodup → (∀ k ∈ startKeys E ops, k ∉ mapKeys st.mSessionMap) →
      ∀ k, terminalCount k (runOps E ops st) ≤ 1 ∧
        (k ∉ mapKeys st.mSessionMap → k ∉ startKeys E ops →
          terminalCount k (runOps E ops st) = 0) := by
  intro ops
  induction ops with
  | nil => intro st _ _ _ k; simp [runOps, terminalCount]
  | cons op ops ih =>
    intro st hnodup hstart hnew k
    rw [startKeys_cons] at hstart hnew
    rw [List.nodup_append] at hstart
    obtain ⟨_, hstartTail, hdisj⟩ := hstart
    cases happ : applyOp E op st with
    | none =>
      have hrun : runOps E (op :: ops) st = partialEffects E op st := by
        simp [runOps, happ]
      rw [hrun]
      obtain ⟨hle, hmem⟩ := partialEffects_signals E op st hnodup k
      refine ⟨hle, fun hk _ => ?_⟩
      by_contra hne
      exact hk (hmem (Nat.one_le_iff_ne_zero.mpr hne))
    | some r =>
      obtain ⟨st1, out⟩ := r
      have hrun : runOps E (op :: ops) st = out ++ runOps E ops st1 := by
        simp [runOps, happ]
      obtain ⟨hnd1, hsub1, hcount1⟩ := applyOp_signals E op st st1 out happ hnodup
        (fun k hk => hnew k (List.mem_append_left _ hk))
      have hnew1 : ∀ k ∈ startKeys E ops, k ∉ mapKeys st1.mSessionMap := by
        intro k2 hk2 hmem
        rcases hsub1 k2 hmem with hold | hop
        · exact hnew k2 (List.mem_append_right _ hk2) hold
        · exact hdisj hop hk2
      obtain ⟨hle, hzero⟩ := ih st1 hnd1 hstartTail hnew1 k
      obtain ⟨hle1, hgone⟩ := hcount1 k
      rw [hrun, terminalCount_append, startKeys_cons]
      constructor
      · by_cases hone : 1 ≤ terminalCount k out
        · obtain ⟨hin, hout⟩ := hgone hone
          have hnot : k ∉ startKeys E ops := fun hmem =>
            hnew k (List.mem_append_right _ hmem) hin
          rw [hzero hout hnot]
          omega
        · omega
      · intro hk hnot
        have hnotOp : k ∉ startKeys E [op] := fun hmem => hnot (List.mem_append_left _ hmem)
        have hnotTail : k ∉ startKeys E ops := fun hmem => hnot (List.mem_append_right _ hmem)
        have hout : k ∉ mapKeys st1.mSessionMap := by
          intro hmem
          rcases hsub1 k hmem with hold | hop
          · exact hk hold
          · exact hnotOp hop
        have h0 : terminalCount k out = 0 := by
          by_contra hne
          exact hk (hgone (Nat.one_le_iff_ne_zero.mpr hne)).1
        rw [h0, hzero hout hnotTail]

/-- C3: for every finite sequence of operations (startSession, any received
datagram, TCP handoff first frame, timer tick under any clock, stop) run from a
registry with distinct keys, the keys generated for the startSession calls
being distinct and not in the registry, and for every key: the number of
started plus failed signals emitted for the entry of that key is at most one. A
tick whose sweep has not returned counts with what it emitted so far. -/
theorem C3_at_most_one_session_signal (E : Env) (ops : List Op) (st : State) (k : QString)
    (hnodup : (mapKeys st.mSessionMap).Nodup)
    (hstart : (startKeys E ops).Nodup)
    (hnew : ∀ k2 ∈ startKeys E ops, k2 ∉ mapKeys st.mSessionMap) :
    terminalCount k (runOps E ops st) ≤ 1 :=
  (runOps_signals E ops st hnodup hstart hnew k).1

/-- Witness of `C3_at_most_one_session_signal`: a session is started with key
[66], acknowledged and consumed by a handoff; a later sweep expires the older
entry [65]; later handoffs for [65] and [66] find nothing. Each key got exactly
one session signal. -/
theorem C3_at_most_one_session_signal_witness :
    terminalCount [66]
        (runOps sampleEnv
          [Op.startSession sampleHost [98] 3 100 [66], Op.recvFrom [18, 52, 0, 2, 66] 9 4000,
           Op.newSocket [66], Op.timeout (fun _ => 500) 5, Op.newSocket [65],
           Op.newSocket [66], Op.stop]
          (sampleState [([65], sampleInfo 100 1)])) ≤ 1 ∧
    runOps sampleEnv
        [Op.startSession sampleHost [98] 3 100 [66], Op.recvFrom [18, 52, 0, 2, 66] 9 4000,
         Op.newSocket [66], Op.timeout (fun _ => 500) 5, Op.newSocket [65],
         Op.newSocket [66], Op.stop]
        (sampleState [([65], sampleInfo 100 1)])
      = [Effect.writeDatagram [18, 52, 0, 1, 66] sampleHost.addr sampleHost.port,
         Effect.writeDatagram [18, 52, 0, 4, 66] sampleHost.addr sampleHost.port,
         Effect.disconnectSlots,
         Effect.onStartSessionSuccess [66] [98] sampleHost,
         Effect.writeDataPack [98],
         Effect.dataPackDeleteLater,
         Effect.handleSession { hostInfo := sampleHost, sessionName := [98], sessionData := 3 },
         Effect.onStartSessionFailed [65] [97] sampleHost,
         Effect.disconnectSlots, Effect.socketClose,
         Effect.disconnectSlots, Effect.socketClose,
         Effect.udpClose, Effect.tcpClose, Effect.timerStop] :=
  ⟨C3_at_most_one_session_signal sampleEnv _ _ [66] (by decide) (by decide) (by decide),
   by decide⟩

/-- The datagrams of two traces in sequence. -/
theorem datagramsSent_append (a b : List Effect) :
    datagramsSent (a ++ b) = datagramsSent a ++ datagramsSent b := by
  induction a with
  | nil => rfl
  | cons x a ih => cases x <;> simp [datagramsSent, ih]

/-- The datagrams of one visit per entry: one SYN per entry that is unexpired
and has status `OPERATION_SYN`, in iteration order, carrying the local 8-bit
form of the key, to the stored address and port. -/
theorem datagramsSent_sweepOutput (E : Env) (now mTimeout : Int) (m : SessionMap) :
    datagramsSent (sweepOutput E now mTimeout m)
      = (m.filter
          (fun e => !expired E now mTimeout e.2 && decide (e.2.status = E.OPERATION_SYN))).map
          (fun e => (synPack E (E.toLocal8Bit e.1), e.2.hostInfo.addr, e.2.hostInfo.port)) := by
  induction m with
  | nil => rfl
  | cons e m ih =>
    obtain ⟨k, v⟩ := e
    rw [sweepOutput, datagramsSent_append, ih]
    by_cases hexp : expired E now mTimeout v = true
    · simp [visitOutput, hexp, datagramsSent]
    · have hexp : expired E now mTimeout v = false := by simpa using hexp
      by_cases hst : v.status = E.OPERATION_SYN
      · simp [visitOutput, hexp, hst, datagramsSent, sendSynPack]
      · simp [visitOutput, hexp, hst, datagramsSent]

/-! ## startSession: the mode guard -/

/-- C11: for a hostInfo whose mode is not REFLECT_CONNECT `startSession` does
nothing: the state (registry included) is unchanged and nothing is emitted, so
no datagram is sent. The guard of line 230, a disjunction of the same test
twice, decides like the single test: for every hostInfo `startSession` is the
function that returns at once when the mode is not REFLECT_CONNECT and else
stores the entry and sends the SYN. -/
theorem C11_startSession_wrong_mode_is_noop (E : Env) (st : State) (hostInfo : HostInfo)
    (sessionName : QString) (sessionData : QVariant) (now : Int) (sessionUuid : QByteArray)
    (hmode : hostInfo.mode ≠ E.REFLECT_CONNECT) :
    startSession E st hostInfo sessionName sessionData now sessionUuid = (st, []) ∧
    datagramsSent (startSession E st hostInfo sessionName sessionData now sessionUuid).2 = [] ∧
    ((hostInfo.mode ≠ E.REFLECT_CONNECT ∨ hostInfo.mode ≠ E.REFLECT_CONNECT) ↔
      hostInfo.mode ≠ E.REFLECT_CONNECT) ∧
    ∀ (st2 : State) (h2 : HostInfo),
      startSession E st2 h2 sessionName sessionData now sessionUuid
        = if h2.mode ≠ E.REFLECT_CONNECT then (st2, [])
          else
            ({ st2 with
                mSessionMap :=
                  mapAssign (E.toQString sessionUuid)
                    { sessionData := sessionData, sessionName := sessionName,
                      hostInfo := h2, createTime := now, status := E.OPERATION_SYN }
                    st2.mSessionMap },
              [sendSynPack E h2 sessionUuid]) := by
  have hrun : startSession E st hostInfo sessionName sessionData now sessionUuid
      = (st, []) := by
    simp [startSession, hmode]
  refine ⟨hrun, ?_, or_self_iff, ?_⟩
  · rw [hrun]
    rfl
  · intro st2 h2
    by_cases h : h2.mode = E.REFLECT_CONNECT
    · simp [startSession, h]
    · simp [startSession, h]

/-- Witness of `C11_startSession_wrong_mode_is_noop`: a hostInfo of mode 1 (the
sample REFLECT_CONNECT is 0). -/
theorem C11_startSession_wrong_mode_is_noop_witness :
    startSession sampleEnv (sampleState [([65], sampleInfo 100 1)])
        { addr := 167772161, port := 5000, info := [], mode := 1 } [98] 3 200 [66]
      = (sampleState [([65], sampleInfo 100 1)], []) :=
  (C11_startSession_wrong_mode_is_noop sampleEnv (sampleState [([65], sampleInfo 100 1)])
    { addr := 167772161, port := 5000, info := [], mode := 1 } [98] 3 200 [66]
    (by decide)).1

/-! ## The datagram handler: dropped datagrams -/

/-- C14: a datagram whose leading `short` is not the signature, and a datagram
with a valid signature whose opcode is none of the three opcodes the handler
tests for, is dropped: the whole state (registry and host pool included) is
unchanged and nothing is emitted: no datagram, no connection, no signal. -/
theorem C14_dropped_datagrams (E : Env) (st : State) (datagram : QByteArray)
    (host : QHostAddress) (port : Nat)
    (hdrop : readShort datagram 0 ≠ E.SIGNATURE ∨
      (readShort datagram 0 = E.SIGNATURE ∧
        readShort datagram 2 ≠ E.OPERATION_ACK ∧
        readShort datagram 2 ≠ E.OPERATION_HEARTBEAT ∧
        readShort datagram 2 ≠ E.OPERATION_ACCEPT_HOST)) :
    onRecvFrom E st datagram host port = (st, []) ∧
    (onRecvFrom E st datagram host port).1.mSessionMap = st.mSessionMap ∧
    (onRecvFrom E st datagram host port).1.mHostPool = st.mHostPool ∧
    datagramsSent (onRecvFrom E st datagram host port).2 = [] ∧
    (∀ e ∈ (onRecvFrom E st datagram host port).2, isNotification e = false) ∧
    (∀ addr p, Effect.connectToHost addr p ∉ (onRecvFrom E st datagram host port).2) := by
  have hrun : onRecvFrom E st datagram host port = (st, []) := by
    rcases hdrop with hsig | ⟨hsig, h1, h2, h3⟩
    · simp [onRecvFrom, hsig]
    · simp [onRecvFrom, hsig, h1, h2, h3]
  rw [hrun]
  simp [datagramsSent]

/-- Witness of `C14_dropped_datagrams`: a datagram starting with the bytes
[18, 53] (the sample signature is [18, 52]), and a datagram with the sample
signature and the opcode 9, which the sample environment gives to no
operation. -/
theorem C14_dropped_datagrams_witness :
    onRecvFrom sampleEnv (sampleState [([65], sampleInfo 100 1)]) [18, 53, 0, 2, 65] 9 4000
      = (sampleState [([65], sampleInfo 100 1)], []) ∧
    onRecvFrom sampleEnv (sampleState [([65], sampleInfo 100 1)]) [18, 52, 0, 9, 65] 9 4000
      = (sampleState [([65], sampleInfo 100 1)], []) :=
  ⟨(C14_dropped_datagrams sampleEnv (sampleState [([65], sampleInfo 100 1)])
      [18, 53, 0, 2, 65] 9 4000 (Or.inl (by decide))).1,
   (C14_dropped_datagrams sampleEnv (sampleState [([65], sampleInfo 100 1)])
      [18, 52, 0, 9, 65] 9 4000
      (Or.inr ⟨by decide, by decide, by decide, by decide⟩)).1⟩

/-! ## The SYN datagram -/

/-- Converting to `short` twice is converting once. -/
theorem toShort_toShort (x : Int) : toShort (toShort x) = toShort x := by
  simp only [toShort]
  omega

/-- A number in the range of `short` is its own conversion. -/
theorem toShort_of_range (x : Int) (hlo : -32768 ≤ x) (hhi : x ≤ 32767) : toShort x = x := by
  simp only [toShort]
  omega

/-- The bytes written for a number and for its conversion to `short` are the
same. -/
theorem putShort_toShort (x : Int) : putShort (toShort x) = putShort x := by
  simp only [putShort, toShort]
  have h : ((x + 32768) % 65536 - 32768) % 65536 = x % 65536 := by omega
  rw [h]

/-- A `short` read behind the two bytes written for another is read from what
follows them. -/
theorem readShort_after_putShort (x : Int) (tail : QByteArray) :
    readShort (putShort x ++ tail) 2 = readShort tail 0 := rfl

/-- The two bytes written for a number, as numbers: the high and then the low
byte of its residue modulo 65536. -/
theorem putShort_bytes (x : Int) :
    (putShort x).map Fin.val = [(x % 65536).toNat / 256, (x % 65536).toNat % 256] := by
  have h0 : 0 ≤ x % 65536 := Int.emod_nonneg _ (by decide)
  have h1 : x % 65536 < 65536 := Int.emod_lt_of_pos _ (by decide)
  have hn : (x % 65536).toNat < 65536 := by omega
  simp only [putShort, List.map_cons, List.map_nil, Fin.ofNat, List.cons.injEq, and_true]
  constructor
  · show (x % 65536).toNat / 256 % 256 = (x % 65536).toNat / 256
    omega
  · show (x % 65536).toNat % 256 % 256 = (x % 65536).toNat % 256
    omega

/-- C15: for every token `t` (the signature and the SYN opcode being numbers in
the range of `short`), the datagram built by `sendSynPack` is the two bytes of
the signature, high byte first, then the two bytes of the SYN opcode, high byte
first, then the bytes of `t`, 4 + |t| bytes in all, sent to the hostInfo's
address and port; and the receiver's decoding of it (a `short` at offset 0 to
compare with the signature, a `short` at offset 2 as opcode, the array without
its first 4 bytes as payload) passes the signature check and yields the opcode
SYN and the payload `t`. -/
theorem C15_syn_codec_round_trip (E : Env) (hostInfo : HostInfo) (t : QByteArray)
    (hsigLo : -32768 ≤ E.SIGNATURE) (hsigHi : E.SIGNATURE ≤ 32767)
    (hsynLo : -32768 ≤ E.OPERATION_SYN) (hsynHi : E.OPERATION_SYN ≤ 32767) :
    sendSynPack E hostInfo t
      = Effect.writeDatagram (synPack E t) hostInfo.addr hostInfo.port ∧
    synPack E t = putShort E.SIGNATURE ++ putShort E.OPERATION_SYN ++ t ∧
    (synPack E t).map Fin.val
      = [(E.SIGNATURE % 65536).toNat / 256, (E.SIGNATURE % 65536).toNat % 256,
         (E.OPERATION_SYN % 65536).toNat / 256, (E.OPERATION_SYN % 65536).toNat % 256]
        ++ t.map Fin.val ∧
    (synPack E t).length = 4 + t.length ∧
    readShort (synPack E t) 0 = E.SIGNATURE ∧
    readShort (synPack E t) 2 = E.OPERATION_SYN ∧
    removeFront 4 (synPack E t) = t := by
  have hpack : synPack E t = putShort E.SIGNATURE ++ putShort E.OPERATION_SYN ++ t := by
    rw [synPack, putShort_toShort]
  refine ⟨rfl, hpack, ?_, ?_, ?_, ?_, ?_⟩
  · rw [hpack, List.map_append, List.map_append, putShort_bytes, putShort_bytes]
    rfl
  · rw [hpack]
    simp [putShort_length]
    omega
  · rw [hpack, List.append_assoc, readShort_putShort, toShort_of_range _ hsigLo hsigHi]
  · rw [hpack, List.append_assoc, readShort_after_putShort, readShort_putShort,
      toShort_of_range _ hsynLo hsynHi]
  · rw [hpack]
    rfl

/-- Witness of `C15_syn_codec_round_trip`: the token [65, 66, 67] in the sample
environment (signature 4660 = 18 * 256 + 52, SYN opcode 1). -/
theorem C15_syn_codec_round_trip_witness :
    synPack sampleEnv [65, 66, 67] = [18, 52, 0, 1, 65, 66, 67] ∧
    readShort (synPack sampleEnv [65, 66, 67]) 0 = 4660 ∧
    readShort (synPack sampleEnv [65, 66, 67]) 2 = 1 ∧
    removeFront 4 (synPack sampleEnv [65, 66, 67]) = [65, 66, 67] :=
  ⟨by decide,
   (C15_syn_codec_round_trip sampleEnv sampleHost [65, 66, 67] (by decide) (by decide)
      (by decide) (by decide)).2.2.2.2.1,
   (C15_syn_codec_round_trip sampleEnv sampleHost [65, 66, 67] (by decide) (by decide)
      (by decide) (by decide)).2.2.2.2.2.1,
   (C15_syn_codec_round_trip sampleEnv sampleHost [65, 66, 67] (by decide) (by decide)
      (by decide) (by decide)).2.2.2.2.2.2⟩

/-! ## The datagram handler: heartbeat -/

/-- C16: for a heartbeat datagram (valid signature, opcode HEARTBEAT, a
number other than the ACK opcode) and whatever `putItem` does: the host put
into the pool has the sender's address and port (and the decrypted payload as
info); the pool becomes what `putItem` returns and the registry is unchanged;
when the pool's size changed (so when it grew by 1) the effects are exactly one
pool-changed signal and one host-arrived signal carrying that host; when the
size is unchanged nothing is emitted. -/
theorem C16_heartbeat_signals (E : Env) (st : State) (datagram : QByteArray)
    (host : QHostAddress) (port : Nat)
    (hsig : readShort datagram 0 = E.SIGNATURE)
    (hop : readShort datagram 2 = E.OPERATION_HEARTBEAT)
    (hack : E.OPERATION_HEARTBEAT ≠ E.OPERATION_ACK) :
    (heartbeatHost E datagram host port).addr = host ∧
    (heartbeatHost E datagram host port).port = port ∧
    (heartbeatHost E datagram host port).info = E.decrypt (removeFront 4 datagram) ∧
    (onRecvFrom E st datagram host port).1.mHostPool
      = E.putItem st.mHostPool (heartbeatHost E datagram host port) ∧
    (onRecvFrom E st datagram host port).1.mSessionMap = st.mSessionMap ∧
    ((E.putItem st.mHostPool (heartbeatHost E datagram host port)).length
        = st.mHostPool.length + 1 →
      (onRecvFrom E st datagram host port).2
        = [Effect.onHostPoolChange,
           Effect.onHostIncome (heartbeatHost E datagram host port)]) ∧
    ((E.putItem st.mHostPool (heartbeatHost E datagram host port)).length
        ≠ st.mHostPool.length →
      (onRecvFrom E st datagram host port).2
        = [Effect.onHostPoolChange,
           Effect.onHostIncome (heartbeatHost E datagram host port)]) ∧
    ((E.putItem st.mHostPool (heartbeatHost E datagram host port)).length
        = st.mHostPool.length →
      (onRecvFrom E st datagram host port).2 = []) := by
  have hrun : onRecvFrom E st datagram host port
      = onIncomeHost E st (heartbeatHost E datagram host port) := by
    simp [onRecvFrom, hsig, hop, hack, heartbeatHost]
  rw [hrun]
  refine ⟨rfl, rfl, rfl, rfl, rfl, ?_, ?_, ?_⟩
  · intro hgrow
    simp [onIncomeHost, hgrow]
  · intro hchange
    have hchange2 : ¬ st.mHostPool.length
        = (E.putItem st.mHostPool (heartbeatHost E datagram host port)).length :=
      fun h => hchange h.symm
    simp [onIncomeHost, hchange2]
  · intro hsame
    simp [onIncomeHost, hsame]

/-- Witness of `C16_heartbeat_signals`: a heartbeat from address 9, port 4000,
into the empty pool, and the same heartbeat again. -/
theorem C16_heartbeat_signals_witness :
    (onRecvFrom sampleEnv (sampleState []) [18, 52, 0, 3, 200] 9 4000).2
      = [Effect.onHostPoolChange,
         Effect.onHostIncome { addr := 9, port := 4000, info := [55], mode := 0 }] ∧
    (onRecvFrom sampleEnv
        (onRecvFrom sampleEnv (sampleState []) [18, 52, 0, 3, 200] 9 4000).1
        [18, 52, 0, 3, 200] 9 4000).2 = [] :=
  ⟨((C16_heartbeat_signals sampleEnv (sampleState []) [18, 52, 0, 3, 200] 9 4000
      (by decide) (by decide) (by decide)).2.2.2.2.2.1 (by decide)).trans (by decide),
   (C16_heartbeat_signals sampleEnv
      (onRecvFrom sampleEnv (sampleState []) [18, 52, 0, 3, 200] 9 4000).1
      [18, 52, 0, 3, 200] 9 4000 (by decide) (by decide) (by decide)).2.2.2.2.2.2.2
      (by decide)⟩

/-! ## The datagram handler: the sender of an ACK -/

/-- C19: an ACK datagram (valid signature, opcode ACK) is handled the same
way whoever sent it: for any two sender addresses and ports the resulting state
and the effects are equal; and a datagram that is emitted goes to the address
and port stored in the entry, with the bytes of the directive for the stored
hostInfo and the token. -/
theorem C19_ack_sender_irrelevant (E : Env) (st : State) (datagram : QByteArray)
    (host1 host2 : QHostAddress) (port1 port2 : Nat)
    (hsig : readShort datagram 0 = E.SIGNATURE)
    (hop : readShort datagram 2 = E.OPERATION_ACK) :
    onRecvFrom E st datagram host1 port1 = onRecvFrom E st datagram host2 port2 ∧
    ∀ d addr p, Effect.writeDatagram d addr p ∈ (onRecvFrom E st datagram host1 port1).2 →
      ∃ info, mapFind (E.toQString (removeFront 4 datagram)) st.mSessionMap = some info ∧
        addr = info.hostInfo.addr ∧ p = info.hostInfo.port ∧
        d = directivePack E info.hostInfo (removeFront 4 datagram) := by
  constructor
  · rw [onRecvFrom_ack E st datagram host1 port1 hsig hop,
      onRecvFrom_ack E st datagram host2 port2 hsig hop]
  · intro d addr p hmem
    rw [onRecvFrom_ack E st datagram host1 port1 hsig hop] at hmem
    cases hfind : mapFind (E.toQString (removeFront 4 datagram)) st.mSessionMap with
    | none =>
      rw [hfind] at hmem
      simp at hmem
    | some info =>
      rw [hfind] at hmem
      by_cases hst : info.status = E.OPERATION_SYN
      · simp only [hst, if_true, List.mem_singleton, Effect.writeDatagram.injEq] at hmem
        obtain ⟨rfl, rfl, rfl⟩ := hmem
        exact ⟨info, rfl, rfl, rfl, rfl⟩
      · simp [hst] at hmem

/-- Witness of `C19_ack_sender_irrelevant`: the ACK for [65] from address 9,
port 4000 and from address 77, port 1. -/
theorem C19_ack_sender_irrelevant_witness :
    onRecvFrom sampleEnv (sampleState [([65], sampleInfo 100 1)]) [18, 52, 0, 2, 65] 9 4000
      = onRecvFrom sampleEnv (sampleState [([65], sampleInfo 100 1)])
          [18, 52, 0, 2, 65] 77 1 ∧
    (onRecvFrom sampleEnv (sampleState [([65], sampleInfo 100 1)])
        [18, 52, 0, 2, 65] 77 1).2
      = [Effect.writeDatagram [18, 52, 0, 4, 65] sampleHost.addr sampleHost.port] :=
  ⟨(C19_ack_sender_irrelevant sampleEnv (sampleState [([65], sampleInfo 100 1)])
      [18, 52, 0, 2, 65] 9 77 4000 1 (by decide) (by decide)).1,
   by decide⟩

/-! ## start and stop -/

/-- C17: in every state `stop` leaves the registry empty and the service not
started, and all it does besides is close the two sockets and stop the timer:
none of its effects is a signal to the consumer, so no entry it drops is
reported as failed; the timeout and the host pool are kept. A `start` call
that reaches the bind (the service not being started) and whose bind or listen
fails returns false and ends in the same way: registry empty, service not
started, no signal. -/
theorem C17_stop_drops_silently (st : State) (port : Int) (bindOk listenOk : Bool) :
    (stop st).1.mSessionMap = [] ∧
    (stop st).1.mIsStart = false ∧
    (stop st).2 = [Effect.udpClose, Effect.tcpClose, Effect.timerStop] ∧
    (∀ e ∈ (stop st).2, isNotification e = false) ∧
    (∀ k, terminalCount k (stop st).2 = 0) ∧
    (stop st).1.mTimeout = st.mTimeout ∧
    (stop st).1.mHostPool = st.mHostPool ∧
    (st.mIsStart = false → (bindOk && listenOk) = false →
      (start st port bindOk listenOk).2.2 = false ∧
      (start st port bindOk listenOk).1.mSessionMap = [] ∧
      (start st port bindOk listenOk).1.mIsStart = false ∧
      (∀ e ∈ (start st port bindOk listenOk).2.1, isNotification e = false) ∧
      (∀ k, terminalCount k (start st port bindOk listenOk).2.1 = 0)) := by
  refine ⟨rfl, rfl, rfl, ?_, ?_, rfl, rfl, ?_⟩
  · intro e he
    simp only [stop, List.mem_cons, List.mem_singleton, List.not_mem_nil, or_false] at he
    rcases he with rfl | rfl | rfl <;> rfl
  · intro k
    simp [stop, terminalCount, isTerminalFor]
  · intro hstart hfail
    cases bindOk <;> cases listenOk <;>
      simp_all [start, stop, terminalCount, isTerminalFor, isNotification]

/-- Witness of `C17_stop_drops_silently`: a started service with one pending
session is stopped; a stopped service with one pending session is started and
its bind fails. -/
theorem C17_stop_drops_silently_witness :
    stop (sampleState [([65], sampleInfo 100 1)])
      = ({ mIsStart := false, mTimeout := 10000, mSessionMap := [], mHostPool := [] },
          [Effect.udpClose, Effect.tcpClose, Effect.timerStop]) ∧
    (start { mIsStart := false, mTimeout := 10000,
             mSessionMap := [([65], sampleInfo 100 1)], mHostPool := [] }
        8000 false true).2.2 = false ∧
    (start { mIsStart := false, mTimeout := 10000,
             mSessionMap := [([65], sampleInfo 100 1)], mHostPool := [] }
        8000 false true).1.mSessionMap = [] :=
  ⟨by decide,
   ((C17_stop_drops_silently
      { mIsStart := false, mTimeout := 10000,
        mSessionMap := [([65], sampleInfo 100 1)], mHostPool := [] }
      8000 false true).2.2.2.2.2.2.2 rfl rfl).1,
   ((C17_stop_drops_silently
      { mIsStart := false, mTimeout := 10000,
        mSessionMap := [([65], sampleInfo 100 1)], mHostPool := [] }
      8000 false true).2.2.2.2.2.2.2 rfl rfl).2.1⟩

/-! ## Status monotonicity -/

/-- In a map with distinct keys an entry that is a member is the one found
under its key. -/
theorem mapFind_of_mem_nodup (k : QString) (v : SessionInfo) :
    ∀ m : SessionMap, (k, v) ∈ m → (mapKeys m).Nodup → mapFind k m = some v := by
  intro m
  induction m with
  | nil => intro h; simp at h
  | cons e m ih =>
    obtain ⟨k1, v1⟩ := e
    intro hmem hnodup
    simp only [mapKeys, List.map_cons, List.nodup_cons] at hnodup
    rcases List.mem_cons.mp hmem with heq | hin
    · simp only [Prod.mk.injEq] at heq
      obtain ⟨rfl, rfl⟩ := heq
      simp [mapFind]
    · have hk : k ≠ k1 := by
        intro h
        subst h
        exact hnodup.1 (List.mem_map.mpr ⟨(k, v), hin, rfl⟩)
      simp only [mapFind, if_neg hk]
      exact ih hin (by simpa [mapKeys] using hnodup.2)

/-- What is found in a part of a map with distinct keys is found in the whole
map. -/
theorem mapFind_of_sublist (k : QString) (v : SessionInfo) (m1 m : SessionMap)
    (hsub : m1.Sublist m) (hnodup : (mapKeys m).Nodup) (hfind : mapFind k m1 = some v) :
    mapFind k m = some v :=
  mapFind_of_mem_nodup k v m (hsub.subset (mem_mapKeys_of_mapFind k v m1 hfind)) hnodup

/-- One loop evaluation keeps the entries visited and still to visit a part,
in order, of what they were. -/
theorem sweepStep_sublist (E : Env) (clock : Nat → Int) (mTimeout : Int) (s : SweepState) :
    ((sweepStep E clock mTimeout s).visited ++ (sweepStep E clock mTimeout s).rest).Sublist
      (s.visited ++ s.rest) := by
  cases s with
  | mk calls visited rest out =>
    cases rest with
    | nil => exact List.Sublist.refl _
    | cons e rest =>
      obtain ⟨k, v⟩ := e
      by_cases hexp : expired E (clock calls) mTimeout v = true
      · simp only [sweepStep, hexp, if_true]
        exact List.Sublist.append_left (List.sublist_cons_self _ _) _
      · have hexp : expired E (clock calls) mTimeout v = false := by simpa using hexp
        by_cases hst : v.status = E.OPERATION_SYN
        · have hstep : sweepStep E clock mTimeout ⟨calls, visited, (k, v) :: rest, out⟩
              = ⟨calls + 1, visited ++ [(k, v)], rest,
                  out ++ [sendSynPack E v.hostInfo (E.toLocal8Bit k)]⟩ := by
            simp [sweepStep, hexp, hst]
          rw [hstep]
          simp
        · have hstep : sweepStep E clock mTimeout ⟨calls, visited, (k, v) :: rest, out⟩
              = ⟨calls + 1, visited, (k, v) :: rest, out⟩ := by
            simp [sweepStep, hexp, hst]
          rw [hstep]

/-- After any number of loop evaluations, under any clock, the entries
visited and still to visit are a part, in order and unchanged, of the
registry. -/
theorem sweepIter_sublist (E : Env) (clock : Nat → Int) (mTimeout : Int) :
    ∀ (n : Nat) (s : SweepState),
      ((sweepIter E clock mTimeout n s).visited ++ (sweepIter E clock mTimeout n s).rest).Sublist
        (s.visited ++ s.rest) := by
  intro n
  induction n with
  | zero => intro s; exact List.Sublist.refl _
  | succ n ih =>
    intro s
    exact (ih (sweepStep E clock mTimeout s)).trans (sweepStep_sublist E clock mTimeout s)

/-- The registry after a sweep that returned is a part, in order and unchanged,
of the registry before, under any clock. -/
theorem handleTimeoutSessions_sublist (E : Env) (clock : Nat → Int) (fuel : Nat)
    (st st1 : State) (out : List Effect)
    (h : handleTimeoutSessions E clock fuel st = some (st1, out)) :
    st1.mSessionMap.Sublist st.mSessionMap ∧ st1.mTimeout = st.mTimeout ∧
    st1.mHostPool = st.mHostPool ∧ st1.mIsStart = st.mIsStart := by
  have hsub := sweepIter_sublist E clock st.mTimeout fuel (sweepStart st)
  simp only [handleTimeoutSessions] at h
  split at h
  · next hrest =>
    rw [hrest, List.append_nil] at hsub
    simp only [Option.some.injEq, Prod.mk.injEq] at h
    obtain ⟨rfl, _⟩ := h
    exact ⟨by simpa [sweepStart] using hsub, rfl, rfl, rfl⟩
  · cases h

/-- The registry after a datagram was handled: as before, or with the status
of the ACK's token set to `OPERATION_ACK`, its entry having had the status
`OPERATION_SYN`. -/
theorem onRecvFrom_map (E : Env) (st : State) (datagram : QByteArray) (host : QHostAddress)
    (port : Nat) :
    (onRecvFrom E st datagram host port).1.mSessionMap = st.mSessionMap ∨
    ∃ info, mapFind (E.toQString (removeFront 4 datagram)) st.mSessionMap = some info ∧
      info.status = E.OPERATION_SYN ∧
      (onRecvFrom E st datagram host port).1.mSessionMap
        = mapSetStatus (E.toQString (removeFront 4 datagram)) E.OPERATION_ACK
            st.mSessionMap := by
  unfold onRecvFrom
  simp only
  split_ifs with h1 h2 h3 h4 h5
  · exact Or.inl rfl
  · cases hfind : mapFind (E.toQString (removeFront 4 datagram)) st.mSessionMap with
    | none => exact Or.inl rfl
    | some info =>
      by_cases hst : info.status = E.OPERATION_SYN
      · right
        exact ⟨info, rfl, hst, by simp [hst]⟩
      · left
        simp [hst]
  · exact Or.inl rfl
  · exact Or.inl rfl
  · left
    split <;> rfl
  · exact Or.inl rfl

/-- C12: for every operation that returns (startSession with a token whose key
is new, any received datagram, a TCP handoff, a tick under any clock, stop), run
on a registry with distinct keys, and every key found both before and after it:
the entry after is the entry before, or the entry before with its status set to
`OPERATION_ACK`; so an entry whose status was `OPERATION_ACK` still has that
status and no operation moves an entry back to `OPERATION_SYN`. -/
theorem C12_status_never_goes_back (E : Env) (op : Op) (st st1 : State) (out : List Effect)
    (k : QString) (v v1 : SessionInfo)
    (hop : applyOp E op st = some (st1, out))
    (hnodup : (mapKeys st.mSessionMap).Nodup)
    (hfresh : ∀ k2 ∈ startKeys E [op], k2 ∉ mapKeys st.mSessionMap)
    (hbefore : mapFind k st.mSessionMap = some v)
    (hafter : mapFind k st1.mSessionMap = some v1) :
    (v1 = v ∨ v1 = { v with status := E.OPERATION_ACK }) ∧
    (v.status = E.OPERATION_ACK → v1.status = E.OPERATION_ACK) := by
  have hkey : k ∈ mapKeys st.mSessionMap :=
    List.mem_map.mpr ⟨(k, v), mem_mapKeys_of_mapFind k v _ hbefore, rfl⟩
  have hmain : v1 = v ∨ v1 = { v with status := E.OPERATION_ACK } := by
    cases op with
    | startSession hostInfo sessionName sessionData now sessionUuid =>
      simp only [applyOp, Option.some.injEq] at hop
      have hne : k ≠ E.toQString sessionUuid := by
        intro h
        subst h
        exact hfresh _ (by simp [startKeys]) hkey
      by_cases hmode : hostInfo.mode = E.REFLECT_CONNECT
      · have hrun : (startSession E st hostInfo sessionName sessionData now
            sessionUuid).1.mSessionMap
            = mapAssign (E.toQString sessionUuid)
                { sessionData := sessionData, sessionName := sessionName,
                  hostInfo := hostInfo, createTime := now, status := E.OPERATION_SYN }
                st.mSessionMap := by
          simp [startSession, hmode]
        rw [hop] at hrun
        simp only at hrun
        rw [hrun, mapFind_mapAssign_ne _ k _ hne, hbefore] at hafter
        left
        exact (Option.some.inj hafter).symm
      · have hrun : (startSession E st hostInfo sessionName sessionData now
            sessionUuid).1.mSessionMap = st.mSessionMap := by
          simp [startSession, hmode]
        rw [hop] at hrun
        simp only at hrun
        rw [hrun, hbefore] at hafter
        left
        exact (Option.some.inj hafter).symm
    | recvFrom datagram host port =>
      simp only [applyOp, Option.some.injEq] at hop
      have hmap := onRecvFrom_map E st datagram host port
      rw [hop] at hmap
      simp only at hmap
      rcases hmap with hsame | ⟨info, hfind, _, hset⟩
      · rw [hsame, hbefore] at hafter
        left
        exact (Option.some.inj hafter).symm
      · by_cases hk : k = E.toQString (removeFront 4 datagram)
        · subst hk
          rw [hset, mapFind_mapSetStatus_self _ _ v _ hbefore] at hafter
          right
          exact (Option.some.inj hafter).symm
        · rw [hset, mapFind_mapSetStatus_ne _ k _ hk, hbefore] at hafter
          left
          exact (Option.some.inj hafter).symm
    | newSocket data =>
      simp only [applyOp, Option.some.injEq] at hop
      cases hfind : mapFind (E.toQString data) st.mSessionMap with
      | none =>
        have hrun : onNewSocket E st data
            = (st, [Effect.disconnectSlots, Effect.socketClose]) := by
          simp [onNewSocket, hfind]
        rw [hrun, Prod.mk.injEq] at hop
        obtain ⟨rfl, _⟩ := hop
        rw [hbefore] at hafter
        left
        exact (Option.some.inj hafter).symm
      | some info =>
        have hrun : (onNewSocket E st data).1.mSessionMap
            = mapErase (E.toQString data) st.mSessionMap := by
          simp [onNewSocket, hfind]
        rw [hop] at hrun
        simp only at hrun
        have hfound := mapFind_of_sublist k v1 _ _ (mapErase_sublist (E.toQString data) _)
          hnodup (by rw [← hrun]; exact hafter)
        rw [hbefore] at hfound
        left
        exact (Option.some.inj hfound).symm
    | timeout clock fuel =>
      simp only [applyOp, onTimeout] at hop
      split at hop
      · cases hop
      · next st2 out2 heq =>
        simp only [Option.some.injEq, Prod.mk.injEq] at hop
        obtain ⟨rfl, _⟩ := hop
        obtain ⟨hsub, _⟩ := handleTimeoutSessions_sublist E clock fuel st st2 out2 heq
        have hfound := mapFind_of_sublist k v1 _ _ hsub hnodup hafter
        rw [hbefore] at hfound
        left
        exact (Option.some.inj hfound).symm
    | stop =>
      simp only [applyOp, stop, Option.some.injEq, Prod.mk.injEq] at hop
      obtain ⟨rfl, _⟩ := hop
      simp [mapFind] at hafter
  refine ⟨hmain, ?_⟩
  intro hacked
  rcases hmain with rfl | rfl
  · exact hacked
  · rfl

/-- Witness of `C12_status_never_goes_back`: the entry of [65] is acknowledged
and a second ACK for [65] arrives; the operation returns with the state
unchanged and the entry keeps the status `OPERATION_ACK`. -/
theorem C12_status_never_goes_back_witness :
    applyOp sampleEnv (Op.recvFrom [18, 52, 0, 2, 65] 9 4000)
        (sampleState [([65], sampleInfo 100 2), ([66], sampleInfo 100 1)])
      = some (sampleState [([65], sampleInfo 100 2), ([66], sampleInfo 100 1)], []) ∧
    (sampleInfo 100 2).status = sampleEnv.OPERATION_ACK :=
  ⟨by decide,
   (C12_status_never_goes_back sampleEnv (Op.recvFrom [18, 52, 0, 2, 65] 9 4000)
      (sampleState [([65], sampleInfo 100 2), ([66], sampleInfo 100 1)])
      (sampleState [([65], sampleInfo 100 2), ([66], sampleInfo 100 1)]) [] [65]
      (sampleInfo 100 2) (sampleInfo 100 2) (by decide) (by decide) (by decide) (by decide)
      (by decide)).2 (by decide)⟩

/-! ## The mode invariant -/

/-- An entry of the map after an assignment is the assigned one or an old
one. -/
theorem mem_mapAssign (k : QString) (v : SessionInfo) (e : QString × SessionInfo) :
    ∀ m : SessionMap, e ∈ mapAssign k v m → e = (k, v) ∨ e ∈ m := by
  intro m
  induction m with
  | nil => intro h; simpa [mapAssign] using h
  | cons e1 m ih =>
    obtain ⟨k1, v1⟩ := e1
    intro h
    by_cases hk : k = k1
    · simp only [mapAssign, if_pos hk, List.mem_cons] at h
      rcases h with h | h
      · exact Or.inl h
      · exact Or.inr (List.mem_cons_of_mem _ h)
    · simp only [mapAssign, if_neg hk] at h
      by_cases hlt : qstringLess k k1 = true
      · rw [if_pos hlt] at h
        rcases List.mem_cons.mp h with h1 | h1
        · exact Or.inl h1
        · exact Or.inr h1
      · rw [if_neg hlt] at h
        rcases List.mem_cons.mp h with h1 | h1
        · exact Or.inr (h1 ▸ List.mem_cons_self _ _)
        · rcases ih h1 with h2 | h2
          · exact Or.inl h2
          · exact Or.inr (List.mem_cons_of_mem _ h2)

/-- An entry of the map after a status write has the hostInfo of an old
entry. -/
theorem mem_mapSetStatus (k : QString) (s : Int) (e : QString × SessionInfo) :
    ∀ m : SessionMap, e ∈ mapSetStatus k s m → ∃ e0 ∈ m, e.2.hostInfo = e0.2.hostInfo := by
  intro m
  induction m with
  | nil => intro h; simp [mapSetStatus] at h
  | cons e1 m ih =>
    obtain ⟨k1, v1⟩ := e1
    intro h
    by_cases hk : k = k1
    · simp only [mapSetStatus, if_pos hk, List.mem_cons] at h
      rcases h with h | h
      · exact ⟨(k1, v1), List.mem_cons_self _ _, by rw [h]⟩
      · exact ⟨e, List.mem_cons_of_mem _ h, rfl⟩
    · simp only [mapSetStatus, if_neg hk, List.mem_cons] at h
      rcases h with h | h
      · exact ⟨(k1, v1), List.mem_cons_self _ _, by rw [h]⟩
      · obtain ⟨e0, he0, heq⟩ := ih h
        exact ⟨e0, List.mem_cons_of_mem _ he0, heq⟩

/-- A call that returns keeps the property that every registry entry has mode
REFLECT_CONNECT. -/
theorem applyCall_modes (E : Env) (c : Call) (st st1 : State)
    (hcall : applyCall E c st = some st1)
    (hmodes : ∀ e ∈ st.mSessionMap, e.2.hostInfo.mode = E.REFLECT_CONNECT) :
    ∀ e ∈ st1.mSessionMap, e.2.hostInfo.mode = E.REFLECT_CONNECT := by
  cases c with
  | start port bindOk listenOk =>
    simp only [applyCall, Option.some.injEq] at hcall
    subst hcall
    have hmap : (start st port bindOk listenOk).1.mSessionMap = st.mSessionMap ∨
        (start st port bindOk listenOk).1.mSessionMap = [] := by
      cases hs : st.mIsStart <;> cases bindOk <;> cases listenOk <;> simp [start, stop, hs]
    rcases hmap with hsame | hnil
    · rw [hsame]
      exact hmodes
    · rw [hnil]
      simp
  | setTimeout value =>
    simp only [applyCall, Option.some.injEq] at hcall
    subst hcall
    exact hmodes
  | slot op =>
    simp only [applyCall, Option.map_eq_some'] at hcall
    obtain ⟨⟨st2, out⟩, hop, rfl⟩ := hcall
    simp only
    cases op with
    | startSession hostInfo sessionName sessionData now sessionUuid =>
      simp only [applyOp, Option.some.injEq] at hop
      by_cases hmode : hostInfo.mode = E.REFLECT_CONNECT
      · have hrun : (startSession E st hostInfo sessionName sessionData now
            sessionUuid).1.mSessionMap
            = mapAssign (E.toQString sessionUuid)
                { sessionData := sessionData, sessionName := sessionName,
                  hostInfo := hostInfo, createTime := now, status := E.OPERATION_SYN }
                st.mSessionMap := by
          simp [startSession, hmode]
        rw [hop] at hrun
        simp only at hrun
        intro e he
        rw [hrun] at he
        rcases mem_mapAssign _ _ e _ he with rfl | he
        · exact hmode
        · exact hmodes e he
      · have hrun : (startSession E st hostInfo sessionName sessionData now
            sessionUuid).1.mSessionMap = st.mSessionMap := by
          simp [startSession, hmode]
        rw [hop] at hrun
        simp only at hrun
        rw [hrun]
        exact hmodes
    | recvFrom datagram host port =>
      simp only [applyOp, Option.some.injEq] at hop
      have hmap := onRecvFrom_map E st datagram host port
      rw [hop] at hmap
      simp only at hmap
      rcases hmap with hsame | ⟨info, _, _, hset⟩
      · rw [hsame]
        exact hmodes
      · intro e he
        rw [hset] at he
        obtain ⟨e0, he0, heq⟩ := mem_mapSetStatus _ _ e _ he
        rw [heq]
        exact hmodes e0 he0
    | newSocket data =>
      simp only [applyOp, Option.some.injEq] at hop
      cases hfind : mapFind (E.toQString data) st.mSessionMap with
      | none =>
        have hrun : (onNewSocket E st data).1.mSessionMap = st.mSessionMap := by
          simp [onNewSocket, hfind]
        rw [hop] at hrun
        simp only at hrun
        rw [hrun]
        exact hmodes
      | some info =>
        have hrun : (onNewSocket E st data).1.mSessionMap
            = mapErase (E.toQString data) st.mSessionMap := by
          simp [onNewSocket, hfind]
        rw [hop] at hrun
        simp only at hrun
        intro e he
        rw [hrun] at he
        exact hmodes e ((mapErase_sublist _ _).subset he)
    | timeout clock fuel =>
      simp only [applyOp, onTimeout] at hop
      split at hop
      · cases hop
      · next st3 out3 heq =>
        simp only [Option.some.injEq, Prod.mk.injEq] at hop
        obtain ⟨rfl, _⟩ := hop
        obtain ⟨hsub, _⟩ := handleTimeoutSessions_sublist E clock fuel st st3 out3 heq
        intro e he
        exact hmodes e (hsub.subset he)
    | stop =>
      simp only [applyOp, stop, Option.some.injEq, Prod.mk.injEq] at hop
      obtain ⟨rfl, _⟩ := hop
      simp

/-- Calls that all return keep the property that every registry entry has
mode REFLECT_CONNECT. -/
theorem runCalls_modes (E : Env) :
    ∀ (calls : List Call) (st st1 : State), runCalls E calls st = some st1 →
      (∀ e ∈ st.mSessionMap, e.2.hostInfo.mode = E.REFLECT_CONNECT) →
      ∀ e ∈ st1.mSessionMap, e.2.hostInfo.mode = E.REFLECT_CONNECT := by
  intro calls
  induction calls with
  | nil =>
    intro st st1 h hmodes
    simp only [runCalls, Option.some.injEq] at h
    subst h
    exact hmodes
  | cons c calls ih =>
    intro st st1 h hmodes
    simp only [runCalls] at h
    cases hcall : applyCall E c st with
    | none => rw [hcall] at h; cases h
    | some st2 =>
      rw [hcall] at h
      exact ih st2 st1 h (applyCall_modes E c st st2 hcall hmodes)

/-- A datagram the handler writes is the directive for the entry found under
the ACK's token, sent to the entry's stored address and port. -/
theorem onRecvFrom_datagram (E : Env) (st : State) (datagram : QByteArray)
    (host : QHostAddress) (port : Nat) (d : QByteArray) (addr : QHostAddress) (p : Nat)
    (hmem : Effect.writeDatagram d addr p ∈ (onRecvFrom E st datagram host port).2) :
    ∃ info, mapFind (E.toQString (removeFront 4 datagram)) st.mSessionMap = some info ∧
      d = directivePack E info.hostInfo (removeFront 4 datagram) ∧
      addr = info.hostInfo.addr ∧ p = info.hostInfo.port := by
  unfold onRecvFrom at hmem
  simp only at hmem
  split_ifs at hmem with h1 h2 h3 h4 h5
  · simp at hmem
  · cases hfind : mapFind (E.toQString (removeFront 4 datagram)) st.mSessionMap with
    | none =>
      rw [hfind] at hmem
      simp at hmem
    | some info =>
      rw [hfind] at hmem
      by_cases hst : info.status = E.OPERATION_SYN
      · simp only [hst, if_true, List.mem_singleton, Effect.writeDatagram.injEq] at hmem
        obtain ⟨rfl, rfl, rfl⟩ := hmem
        exact ⟨info, rfl, rfl, rfl, rfl⟩
      · simp [hst] at hmem
  · unfold onIncomeHost at hmem
    simp only at hmem
    split_ifs at hmem <;> simp at hmem
  · simp at hmem
  · split at hmem <;> simp at hmem
  · simp at hmem

/-- The opcode field of a directive datagram reads as the directive opcode
converted to `short`. -/
theorem readShort_directivePack (E : Env) (hostInfo : HostInfo) (uuid : QByteArray) :
    readShort (directivePack E hostInfo uuid) 2 = toShort (directiveOpcode E hostInfo) := by
  rw [directivePack, List.append_assoc, readShort_after_putShort, readShort_putShort,
    toShort_toShort]

/-- The opcode field of a SYN datagram reads as the SYN opcode converted to
`short`. -/
theorem readShort_synPack (E : Env) (uuid : QByteArray) :
    readShort (synPack E uuid) 2 = toShort E.OPERATION_SYN := by
  rw [synPack, List.append_assoc, readShort_after_putShort, readShort_putShort,
    toShort_toShort]

/-- One loop evaluation of the sweep writes no datagram but a SYN datagram. -/
theorem sweepStep_datagrams (E : Env) (clock : Nat → Int) (mTimeout : Int) (s : SweepState)
    (hout : ∀ d addr p, Effect.writeDatagram d addr p ∈ s.out → ∃ u, d = synPack E u) :
    ∀ d addr p, Effect.writeDatagram d addr p ∈ (sweepStep E clock mTimeout s).out →
      ∃ u, d = synPack E u := by
  cases s with
  | mk calls visited rest out =>
    cases rest with
    | nil => exact hout
    | cons e rest =>
      obtain ⟨k, v⟩ := e
      intro d addr p hmem
      by_cases hexp : expired E (clock calls) mTimeout v = true
      · simp only [sweepStep, hexp, if_true, List.mem_append, List.mem_singleton] at hmem
        rcases hmem with hmem | hmem
        · exact hout d addr p hmem
        · cases hmem
      · have hexp : expired E (clock calls) mTimeout v = false := by simpa using hexp
        by_cases hst : v.status = E.OPERATION_SYN
        · have hstep : sweepStep E clock mTimeout ⟨calls, visited, (k, v) :: rest, out⟩
              = ⟨calls + 1, visited ++ [(k, v)], rest,
                  out ++ [sendSynPack E v.hostInfo (E.toLocal8Bit k)]⟩ := by
            simp [sweepStep, hexp, hst]
          rw [hstep] at hmem
          simp only [List.mem_append, List.mem_singleton, sendSynPack,
            Effect.writeDatagram.injEq] at hmem
          rcases hmem with hmem | ⟨rfl, _, _⟩
          · exact hout d addr p hmem
          · exact ⟨_, rfl⟩
        · have hstep : sweepStep E clock mTimeout ⟨calls, visited, (k, v) :: rest, out⟩
              = ⟨calls + 1, visited, (k, v) :: rest, out⟩ := by
            simp [sweepStep, hexp, hst]
          rw [hstep] at hmem
          exact hout d addr p hmem

/-- After any number of loop evaluations, under any clock, the sweep has
written no datagram but SYN datagrams. -/
theorem sweepIter_datagrams (E : Env) (clock : Nat → Int) (mTimeout : Int) :
    ∀ (n : Nat) (s : SweepState),
      (∀ d addr p, Effect.writeDatagram d addr p ∈ s.out → ∃ u, d = synPack E u) →
      ∀ d addr p, Effect.writeDatagram d addr p ∈ (sweepIter E clock mTimeout n s).out →
        ∃ u, d = synPack E u := by
  intro n
  induction n with
  | zero => intro s hout; exact hout
  | succ n ih =>
    intro s hout
    exact ih _ (sweepStep_datagrams E clock mTimeout s hout)

/-- Whatever operation runs in a state whose registry entries all have mode
REFLECT_CONNECT, whether it returns or not, every datagram it writes has the
SYN opcode or the CONNECT_HOST opcode in its opcode field. -/
theorem runOps_single_datagrams (E : Env) (op : Op) (st : State)
    (hmodes : ∀ e ∈ st.mSessionMap, e.2.hostInfo.mode = E.REFLECT_CONNECT)
    (d : QByteArray) (addr : QHostAddress) (p : Nat)
    (hmem : Effect.writeDatagram d addr p ∈ runOps E [op] st) :
    readShort d 2 = toShort E.OPERATION_SYN ∨
    readShort d 2 = toShort E.OPERATION_CONNECT_HOST := by
  cases op with
  | startSession hostInfo sessionName sessionData now sessionUuid =>
    simp only [runOps, applyOp, List.append_nil] at hmem
    by_cases hmode : hostInfo.mode = E.REFLECT_CONNECT
    · simp only [startSession, hmode, ne_eq, not_true_eq_false, or_self, if_false,
        List.mem_singleton, sendSynPack, Effect.writeDatagram.injEq] at hmem
      obtain ⟨rfl, _, _⟩ := hmem
      exact Or.inl (readShort_synPack E _)
    · simp [startSession, hmode] at hmem
  | recvFrom datagram host port =>
    simp only [runOps, applyOp, List.append_nil] at hmem
    obtain ⟨info, hfind, rfl, _, _⟩ :=
      onRecvFrom_datagram E st datagram host port d addr p hmem
    have hmode := hmodes _ (mem_mapKeys_of_mapFind _ _ _ hfind)
    simp only at hmode
    right
    rw [readShort_directivePack]
    simp [directiveOpcode, hmode]
  | newSocket data =>
    simp only [runOps, applyOp, List.append_nil, onNewSocket] at hmem
    split at hmem <;> simp at hmem
  | timeout clock fuel =>
    have hsweep := sweepIter_datagrams E clock st.mTimeout fuel (sweepStart st)
      (by intro d addr p h; simp [sweepStart] at h)
    left
    simp only [runOps, applyOp, onTimeout, handleTimeoutSessions, partialEffects] at hmem
    split at hmem
    · next st1 out heq =>
      split at heq
      · cases heq
      · next st2 out2 heq2 =>
        split at heq2
        · simp only [Option.some.injEq, Prod.mk.injEq] at heq2 heq
          obtain ⟨_, rfl⟩ := heq2
          obtain ⟨_, rfl⟩ := heq
          simp only [List.append_nil, List.mem_append] at hmem
          rcases hmem with hmem | hmem
          · obtain ⟨u, rfl⟩ := hsweep d addr p hmem
            exact readShort_synPack E u
          · split_ifs at hmem <;> simp at hmem
        · cases heq2
    · obtain ⟨u, rfl⟩ := hsweep d addr p hmem
      exact readShort_synPack E u
  | stop =>
    simp [runOps, applyOp, stop] at hmem

/-- C20: in every state reached from a state with an empty registry by calls
of the service (startSession, any received datagram, TCP handoff, tick, stop,
start, setTimeout) that all returned, every registry entry's hostInfo has mode
REFLECT_CONNECT; hence every datagram the datagram handler writes in such a
state, for any datagram it receives, is the signature, the CONNECT_HOST opcode
and the token, its opcode field reads as CONNECT_HOST, and (the two opcodes
being different as `short`) not as LISTEN_HOST; and whatever operation runs in
such a state, every datagram it writes has the SYN or the CONNECT_HOST opcode
in its opcode field. -/
theorem C20_mode_invariant (E : Env) (calls : List Call) (st0 st : State)
    (hempty : st0.mSessionMap = [])
    (hrun : runCalls E calls st0 = some st) :
    (∀ e ∈ st.mSessionMap, e.2.hostInfo.mode = E.REFLECT_CONNECT) ∧
    (∀ (datagram : QByteArray) (host : QHostAddress) (port : Nat) (d : QByteArray)
      (addr : QHostAddress) (p : Nat),
      Effect.writeDatagram d addr p ∈ (onRecvFrom E st datagram host port).2 →
      d = putShort E.SIGNATURE ++ putShort (toShort E.OPERATION_CONNECT_HOST)
            ++ removeFront 4 datagram ∧
      readShort d 2 = toShort E.OPERATION_CONNECT_HOST ∧
      (toShort E.OPERATION_LISTEN_HOST ≠ toShort E.OPERATION_CONNECT_HOST →
        readShort d 2 ≠ toShort E.OPERATION_LISTEN_HOST)) ∧
    ∀ (op : Op) (d : QByteArray) (addr : QHostAddress) (p : Nat),
      Effect.writeDatagram d addr p ∈ runOps E [op] st →
      readShort d 2 = toShort E.OPERATION_SYN ∨
      readShort d 2 = toShort E.OPERATION_CONNECT_HOST := by
  have hmodes := runCalls_modes E calls st0 st hrun (by rw [hempty]; simp)
  refine ⟨hmodes, ?_,
    fun op d addr p hmem => runOps_single_datagrams E op st hmodes d addr p hmem⟩
  intro datagram host port d addr p hmem
  obtain ⟨info, hfind, rfl, _, _⟩ := onRecvFrom_datagram E st datagram host port d addr p hmem
  have hmode := hmodes _ (mem_mapKeys_of_mapFind _ _ _ hfind)
  simp only at hmode
  have hopcode : directiveOpcode E info.hostInfo = E.OPERATION_CONNECT_HOST := by
    simp [directiveOpcode, hmode]
  have hread := readShort_directivePack E info.hostInfo (removeFront 4 datagram)
  rw [hopcode] at hread
  refine ⟨?_, hread, ?_⟩
  · rw [directivePack, hopcode]
  · intro hne
    rw [hread]
    exact fun h => hne h.symm

/-- Witness of `C20_mode_invariant`: from the initial state the service is
started, a session is started with uuid [66] and its ACK arrives; the registry
then holds one entry, of mode REFLECT_CONNECT. -/
theorem C20_mode_invariant_witness :
    runCalls sampleEnv
        [Call.start 8000 true true,
         Call.slot (Op.startSession sampleHost [97] 7 100 [66]),
         Call.slot (Op.recvFrom [18, 52, 0, 2, 66] 9 4000)] init
      = some (sampleState [([66], sampleInfo 100 2)]) ∧
    ∀ e ∈ (sampleState [([66], sampleInfo 100 2)]).mSessionMap,
      e.2.hostInfo.mode = sampleEnv.REFLECT_CONNECT :=
  ⟨by decide,
   (C20_mode_invariant sampleEnv
      [Call.start 8000 true true,
       Call.slot (Op.startSession sampleHost [97] 7 100 [66]),
       Call.slot (Op.recvFrom [18, 52, 0, 2, 66] 9 4000)] init
      (sampleState [([66], sampleInfo 100 2)]) rfl (by decide)).1⟩

/-! ## Arithmetic in `time_t` -/

/-- A number in the range of `time_t` is its own conversion. -/
theorem toTimeT_of_range (bits : Nat) (x : Int) (hbits : 0 < bits)
    (hlo : -timeHalf bits ≤ x) (hhi : x < timeHalf bits) : toTimeT bits x = x := by
  have hpow : ((2 ^ bits : Nat) : Int) = 2 * timeHalf bits := by
    obtain ⟨b, rfl⟩ : ∃ b, bits = b + 1 := ⟨bits - 1, by omega⟩
    simp only [timeHalf, Nat.add_sub_cancel, pow_succ]
    push_cast
    ring
  have hmod : (x + timeHalf bits) % (2 * timeHalf bits) = x + timeHalf bits :=
    Int.emod_eq_of_lt (by omega) (by omega)
  rw [toTimeT, hpow, hmod]
  omega

/-- When the age times 1000 is in the range of `time_t`, the expiry test of
line 255 decides whether that product is at least the timeout. -/
theorem expired_of_range (E : Env) (now D : Int) (v : SessionInfo) (hbits : 0 < E.timeBits)
    (hlo : -timeHalf E.timeBits ≤ (now - v.createTime) * 1000)
    (hhi : (now - v.createTime) * 1000 < timeHalf E.timeBits) :
    expired E now D v = true ↔ D ≤ (now - v.createTime) * 1000 := by
  have hdiff : toTimeT E.timeBits (now - v.createTime) = now - v.createTime :=
    toTimeT_of_range _ _ hbits (by omega) (by omega)
  simp only [expired, hdiff, toTimeT_of_range _ _ hbits hlo hhi, ge_iff_le, decide_eq_true_eq]

/-- The same test, for a result of false. -/
theorem not_expired_of_range (E : Env) (now D : Int) (v : SessionInfo) (hbits : 0 < E.timeBits)
    (hlo : -timeHalf E.timeBits ≤ (now - v.createTime) * 1000)
    (hhi : (now - v.createTime) * 1000 < timeHalf E.timeBits) :
    expired E now D v = false ↔ (now - v.createTime) * 1000 < D := by
  have h := expired_of_range E now D v hbits hlo hhi
  constructor
  · intro hf
    by_contra hcon
    rw [h.mpr (by omega)] at hf
    cases hf
  · intro hlt
    cases hexp : expired E now D v with
    | false => rfl
    | true => have := h.mp hexp; omega

/-! ## The sweep under a moving clock -/

/-- One loop evaluation, under any clock: the entry under the iterator is
kept (it tested unexpired at a clock reading and still awaits its ACK), or
removed and reported as failed (it tested expired at a clock reading), or stays
under the iterator. -/
theorem sweepStep_split (E : Env) (clock : Nat → Int) (mTimeout : Int) (s : SweepState) :
    ∃ kept removed : SessionMap,
      (sweepStep E clock mTimeout s).visited = s.visited ++ kept ∧
      s.rest.Perm (kept ++ (removed ++ (sweepStep E clock mTimeout s).rest)) ∧
      failedSignals (sweepStep E clock mTimeout s).out
        = failedSignals s.out
            ++ removed.map (fun e => (e.1, e.2.sessionName, e.2.hostInfo)) ∧
      (∀ e ∈ removed, ∃ n, expired E (clock n) mTimeout e.2 = true) ∧
      (∀ e ∈ kept, ∃ n, expired E (clock n) mTimeout e.2 = false ∧
        e.2.status = E.OPERATION_SYN) := by
  cases s with
  | mk calls visited rest out =>
    cases rest with
    | nil => exact ⟨[], [], by simp [sweepStep], by simp [sweepStep], by simp [sweepStep],
        by simp, by simp⟩
    | cons e rest =>
      obtain ⟨k, v⟩ := e
      by_cases hexp : expired E (clock calls) mTimeout v = true
      · have hstep : sweepStep E clock mTimeout ⟨calls, visited, (k, v) :: rest, out⟩
            = ⟨calls + 1, visited, rest,
                out ++ [Effect.onStartSessionFailed k v.sessionName v.hostInfo]⟩ := by
          simp [sweepStep, hexp]
        rw [hstep]
        refine ⟨[], [(k, v)], by simp, by simp, ?_, ?_, by simp⟩
        · simp [failedSignals_append, failedSignals]
        · intro e he
          simp only [List.mem_singleton] at he
          subst he
          exact ⟨calls, hexp⟩
      · have hexp : expired E (clock calls) mTimeout v = false := by simpa using hexp
        by_cases hst : v.status = E.OPERATION_SYN
        · have hstep : sweepStep E clock mTimeout ⟨calls, visited, (k, v) :: rest, out⟩
              = ⟨calls + 1, visited ++ [(k, v)], rest,
                  out ++ [sendSynPack E v.hostInfo (E.toLocal8Bit k)]⟩ := by
            simp [sweepStep, hexp, hst]
          rw [hstep]
          refine ⟨[(k, v)], [], rfl, by simp, ?_, by simp, ?_⟩
          · simp [failedSignals_append, failedSignals, sendSynPack]
          · intro e he
            simp only [List.mem_singleton] at he
            subst he
            exact ⟨calls, hexp, hst⟩
        · have hstep : sweepStep E clock mTimeout ⟨calls, visited, (k, v) :: rest, out⟩
              = ⟨calls + 1, visited, (k, v) :: rest, out⟩ := by
            simp [sweepStep, hexp, hst]
          rw [hstep]
          exact ⟨[], [], by simp, by simp, by simp, by simp, by simp⟩

/-- After any number of loop evaluations, under any clock: the entries that
were to visit are split into the entries kept (each tested unexpired at a clock
reading and awaits its ACK), the entries removed (each tested expired at a clock
reading, and reported as failed exactly once, in order) and the entries still to
visit. -/
theorem sweepIter_split (E : Env) (clock : Nat → Int) (mTimeout : Int) :
    ∀ (n : Nat) (s : SweepState),
      ∃ kept removed : SessionMap,
        (sweepIter E clock mTimeout n s).visited = s.visited ++ kept ∧
        s.rest.Perm (kept ++ (removed ++ (sweepIter E clock mTimeout n s).rest)) ∧
        failedSignals (sweepIter E clock mTimeout n s).out
          = failedSignals s.out
              ++ removed.map (fun e => (e.1, e.2.sessionName, e.2.hostInfo)) ∧
        (∀ e ∈ removed, ∃ n, expired E (clock n) mTimeout e.2 = true) ∧
        (∀ e ∈ kept, ∃ n, expired E (clock n) mTimeout e.2 = false ∧
          e.2.status = E.OPERATION_SYN) := by
  intro n
  induction n with
  | zero => intro s; exact ⟨[], [], by simp [sweepIter], by simp [sweepIter],
      by simp [sweepIter], by simp, by simp⟩
  | succ n ih =>
    intro s
    obtain ⟨kept1, removed1, hv1, hp1, hf1, hr1, hk1⟩ := sweepStep_split E clock mTimeout s
    obtain ⟨kept2, removed2, hv2, hp2, hf2, hr2, hk2⟩ := ih (sweepStep E clock mTimeout s)
    refine ⟨kept1 ++ kept2, removed1 ++ removed2, ?_, ?_, ?_, ?_, ?_⟩
    · rw [sweepIter, hv2, hv1, List.append_assoc]
    · rw [sweepIter]
      refine hp1.trans ?_
      have h1 : (removed1 ++ (sweepStep E clock mTimeout s).rest).Perm
          (removed1 ++ (kept2 ++ (removed2
            ++ (sweepIter E clock mTimeout n (sweepStep E clock mTimeout s)).rest))) :=
        List.Perm.append_left _ hp2
      have h2 := List.perm_append_comm_assoc removed1 kept2
        (removed2 ++ (sweepIter E clock mTimeout n (sweepStep E clock mTimeout s)).rest)
      have h3 := (h1.trans h2).append_left kept1
      simpa [List.append_assoc] using h3
    · rw [sweepIter, hf2, hf1, List.map_append, List.append_assoc]
    · intro e he
      rcases List.mem_append.mp he with he | he
      · exact hr1 e he
      · exact hr2 e he
    · intro e he
      rcases List.mem_append.mp he with he | he
      · exact hk1 e he
      · exact hk2 e he

/-- C4 (as stated, refuted): on a platform with a 32-bit `time_t`, an entry
created at second 1700000000 and swept at second 1702147484 has the age
2147484 s, far beyond the timeout of 10000 ms, but the product 2147484 * 1000
leaves the range of `time_t` and wraps to a negative number: the sweep
completes, keeps the entry, reports no failure and resends its SYN. The same
happens with a 64-bit `time_t` at the age 9223372036854776 s. -/
theorem C4_overflow_keeps_expired_entry :
    ((1702147484 : Int) - 1700000000) * 1000 ≥ 10000 ∧
    handleTimeoutSessions sampleEnv32 (fun _ => 1702147484) 1
        (sampleState [([65], sampleInfo 1700000000 1)])
      = some (sampleState [([65], sampleInfo 1700000000 1)],
          [sendSynPack sampleEnv32 sampleHost [65]]) ∧
    ((9223372036854776 : Int) - 0) * 1000 ≥ 10000 ∧
    handleTimeoutSessions sampleEnv (fun _ => 9223372036854776) 1
        (sampleState [([65], sampleInfo 0 1)])
      = some (sampleState [([65], sampleInfo 0 1)], [sendSynPack sampleEnv sampleHost [65]]) := by
  decide

/-- C4 (amended): let every clock reading during the sweep lie between `lo`
and `hi` (seconds), let the age of an entry at reading `c` be
(c - createTime) * 1000 as line 255 computes it, and let the ages at `lo` and at
`hi` of all entries be in the range of `time_t`. When the sweep completes: the
registry is split into the entries left, in their order, and the entries
removed; there is exactly one failed signal per removed entry, in order,
carrying its stored name and hostInfo; every removed entry has age at least the
timeout at `hi`, so no entry is failed before createTime * 1000 + mTimeout; every
entry left has age below the timeout at `lo`; an entry of age below the timeout
at `hi` is left and one of age at least the timeout at `lo` is removed; nothing
else in the state changes. Under one clock reading (`lo = hi`) the entries left
are exactly those of age below the timeout and the failed signals exactly those
of the entries of age at least the timeout, and the sweep does complete, within
one loop evaluation per entry, whenever no entry is unexpired with a status
other than `OPERATION_SYN`. -/
theorem C4_sweep_removes_exactly_expired (E : Env) (clock : Nat → Int) (lo hi : Int)
    (st : State) (hbits : 0 < E.timeBits)
    (hclock : ∀ n, lo ≤ clock n ∧ clock n ≤ hi)
    (hrange : ∀ e ∈ st.mSessionMap,
      -timeHalf E.timeBits ≤ (lo - e.2.createTime) * 1000 ∧
      (hi - e.2.createTime) * 1000 < timeHalf E.timeBits) :
    (∀ (fuel : Nat) (st1 : State) (out : List Effect),
      handleTimeoutSessions E clock fuel st = some (st1, out) →
      (∃ removed : SessionMap,
        st.mSessionMap.Perm (st1.mSessionMap ++ removed) ∧
        failedSignals out = removed.map (fun e => (e.1, e.2.sessionName, e.2.hostInfo)) ∧
        (∀ e ∈ removed, st.mTimeout ≤ (hi - e.2.createTime) * 1000) ∧
        (∀ e ∈ st.mSessionMap, st.mTimeout ≤ (lo - e.2.createTime) * 1000 → e ∈ removed) ∧
        (∀ e ∈ st.mSessionMap, (hi - e.2.createTime) * 1000 < st.mTimeout → e ∉ removed)) ∧
      st1.mSessionMap.Sublist st.mSessionMap ∧
      (∀ e ∈ st1.mSessionMap, (lo - e.2.createTime) * 1000 < st.mTimeout) ∧
      (∀ e ∈ st.mSessionMap,
        (hi - e.2.createTime) * 1000 < st.mTimeout → e ∈ st1.mSessionMap) ∧
      (∀ e ∈ st.mSessionMap,
        st.mTimeout ≤ (lo - e.2.createTime) * 1000 → e ∉ st1.mSessionMap) ∧
      (∀ k name h, Effect.onStartSessionFailed k name h ∈ out →
        ∃ v, (k, v) ∈ st.mSessionMap ∧ v.sessionName = name ∧ v.hostInfo = h ∧
          v.createTime * 1000 + st.mTimeout ≤ hi * 1000) ∧
      (lo = hi →
        st1.mSessionMap
          = st.mSessionMap.filter
              (fun e => decide ((lo - e.2.createTime) * 1000 < st.mTimeout)) ∧
        failedSignals out
          = (st.mSessionMap.filter
              (fun e => decide ((lo - e.2.createTime) * 1000 ≥ st.mTimeout))).map
              (fun e => (e.1, e.2.sessionName, e.2.hostInfo))) ∧
      st1.mTimeout = st.mTimeout ∧ st1.mHostPool = st.mHostPool ∧
      st1.mIsStart = st.mIsStart) ∧
    (lo = hi →
      (∀ e ∈ st.mSessionMap, (lo - e.2.createTime) * 1000 < st.mTimeout →
        e.2.status = E.OPERATION_SYN) →
      (handleTimeoutSessions E clock st.mSessionMap.length st).isSome = true) := by
  -- the expiry test at a clock reading, for an entry of the registry
  have hread : ∀ e ∈ st.mSessionMap, ∀ n,
      -timeHalf E.timeBits ≤ (clock n - e.2.createTime) * 1000 ∧
      (clock n - e.2.createTime) * 1000 < timeHalf E.timeBits := by
    intro e he n
    have h1 := hrange e he
    have h2 := hclock n
    constructor <;> omega
  have hconst : lo = hi → clock = fun _ => lo := by
    intro heq
    funext n
    have := hclock n
    omega
  have hlohi : lo ≤ hi := le_trans (hclock 0).1 (hclock 0).2
  constructor
  · intro fuel st1 out h
    obtain ⟨hsub, htime, hpool, hstart⟩ := handleTimeoutSessions_sublist E clock fuel st st1 out h
    obtain ⟨kept, removed, hv, hp, hf, hr, hk⟩ :=
      sweepIter_split E clock st.mTimeout fuel (sweepStart st)
    have hmap : st1.mSessionMap = kept ∧ out
        = (sweepIter E clock st.mTimeout fuel (sweepStart st)).out ∧
        (sweepIter E clock st.mTimeout fuel (sweepStart st)).rest = [] := by
      simp only [handleTimeoutSessions] at h
      split at h
      · next hrest =>
        simp only [Option.some.injEq, Prod.mk.injEq] at h
        obtain ⟨rfl, rfl⟩ := h
        exact ⟨by simpa [sweepStart] using hv, rfl, hrest⟩
      · cases h
    obtain ⟨hkept, hout, hrest⟩ := hmap
    rw [hrest] at hp
    have hp : st.mSessionMap.Perm (st1.mSessionMap ++ removed) := by
      simpa [sweepStart, hkept] using hp
    have hf : failedSignals out
        = removed.map (fun e => (e.1, e.2.sessionName, e.2.hostInfo)) := by
      rw [hout, hf]
      simp [sweepStart, failedSignals]
    rw [← hkept] at hk
    have hremovedAge : ∀ e ∈ removed, st.mTimeout ≤ (hi - e.2.createTime) * 1000 := by
      intro e he
      have hin : e ∈ st.mSessionMap := hp.symm.subset (List.mem_append_right _ he)
      obtain ⟨n, hexp⟩ := hr e he
      have hrd := hread e hin n
      have := (expired_of_range E (clock n) st.mTimeout e.2 hbits hrd.1 hrd.2).mp hexp
      have := hclock n
      omega
    have hkeptAge : ∀ e ∈ st1.mSessionMap, (lo - e.2.createTime) * 1000 < st.mTimeout := by
      intro e he
      have hin : e ∈ st.mSessionMap := hsub.subset he
      obtain ⟨n, hexp, _⟩ := hk e he
      have hrd := hread e hin n
      have := (not_expired_of_range E (clock n) st.mTimeout e.2 hbits hrd.1 hrd.2).mp hexp
      have := hclock n
      omega
    have hcases : ∀ e ∈ st.mSessionMap, e ∈ st1.mSessionMap ∨ e ∈ removed := by
      intro e he
      exact List.mem_append.mp (hp.subset he)
    refine ⟨⟨removed, hp, hf, hremovedAge, ?_, ?_⟩, hsub, hkeptAge, ?_, ?_, ?_, ?_, htime,
      hpool, hstart⟩
    · intro e he hage
      rcases hcases e he with h1 | h1
      · have := hkeptAge e h1
        omega
      · exact h1
    · intro e he hage h1
      have := hremovedAge e h1
      omega
    · intro e he hage
      rcases hcases e he with h1 | h1
      · exact h1
      · have := hremovedAge e h1
        omega
    · intro e he hage h1
      have := hkeptAge e h1
      omega
    · intro k name hi2 hmem
      rw [← mem_failedSignals, hf, List.mem_map] at hmem
      obtain ⟨e, he, heq⟩ := hmem
      simp only [Prod.mk.injEq] at heq
      obtain ⟨rfl, rfl, rfl⟩ := heq
      have hin : e ∈ st.mSessionMap := hp.symm.subset (List.mem_append_right _ he)
      refine ⟨e.2, hin, rfl, rfl, ?_⟩
      have := hremovedAge e he
      linarith
    · intro heq
      have hc := hconst heq
      subst hc
      obtain ⟨h1, h2, _⟩ := handleTimeoutSessions_exit E lo fuel st st1 out h
      constructor
      · rw [h1]
        apply List.filter_congr
        intro e he
        have hrd := hread e he 0
        simp only at hrd
        cases hexp : expired E lo st.mTimeout e.2 with
        | true =>
          have := (expired_of_range E lo st.mTimeout e.2 hbits hrd.1 hrd.2).mp hexp
          simp only [Bool.not_true]
          exact (decide_eq_false (by omega)).symm
        | false =>
          have := (not_expired_of_range E lo st.mTimeout e.2 hbits hrd.1 hrd.2).mp hexp
          simp only [Bool.not_false]
          exact (decide_eq_true this).symm
      · rw [h2, failedSignals_sweepOutput]
        congr 1
        apply List.filter_congr
        intro e he
        have hrd := hread e he 0
        simp only at hrd
        cases hexp : expired E lo st.mTimeout e.2 with
        | true =>
          have := (expired_of_range E lo st.mTimeout e.2 hbits hrd.1 hrd.2).mp hexp
          exact (decide_eq_true (by omega)).symm
        | false =>
          have := (not_expired_of_range E lo st.mTimeout e.2 hbits hrd.1 hrd.2).mp hexp
          exact (decide_eq_false (by omega)).symm
  · intro heq hok
    have hc := hconst heq
    subst hc
    have hexit := sweepIter_exits E lo st.mTimeout st.mSessionMap 0 [] [] (by
      intro e he hexp
      have hrd := hread e he 0
      simp only at hrd
      exact hok e he
        ((not_expired_of_range E lo st.mTimeout e.2 hbits hrd.1 hrd.2).mp hexp))
    simp only [handleTimeoutSessions, sweepStart]
    rw [hexit]
    rfl

/-- Witness of `C4_sweep_removes_exactly_expired`: the clock reads 105 at the
first loop evaluation and 106 afterwards, the timeout is 10000 ms. The entry
created at 100 stays and its SYN is resent; the entries created at 90 and 95
(the latter already acknowledged) are removed and reported. -/
theorem C4_sweep_removes_exactly_expired_witness :
    handleTimeoutSessions sampleEnv (fun n => if n = 0 then 105 else 106) 3
        (sampleState [([65], sampleInfo 100 1), ([66], sampleInfo 90 1),
          ([67], sampleInfo 95 2)])
      = some (sampleState [([65], sampleInfo 100 1)],
          [sendSynPack sampleEnv sampleHost [65],
           Effect.onStartSessionFailed [66] [97] sampleHost,
           Effect.onStartSessionFailed [67] [97] sampleHost]) ∧
    (sampleState [([65], sampleInfo 100 1)]).mSessionMap.Sublist
      (sampleState [([65], sampleInfo 100 1), ([66], sampleInfo 90 1),
        ([67], sampleInfo 95 2)]).mSessionMap ∧
    ∀ e ∈ (sampleState [([65], sampleInfo 100 1)]).mSessionMap,
      (105 - e.2.createTime) * 1000 < 10000 :=
  have h := (C4_sweep_removes_exactly_expired sampleEnv (fun n => if n = 0 then 105 else 106)
    105 106
    (sampleState [([65], sampleInfo 100 1), ([66], sampleInfo 90 1), ([67], sampleInfo 95 2)])
    (by decide)
    (fun n => by by_cases hn : n = 0 <;> simp [hn])
    (by decide)).1 3 (sampleState [([65], sampleInfo 100 1)])
    [sendSynPack sampleEnv sampleHost [65],
     Effect.onStartSessionFailed [66] [97] sampleHost,
     Effect.onStartSessionFailed [67] [97] sampleHost] (by decide)
  ⟨by decide, h.2.1, h.2.2.1⟩

/-! ## The expiry threshold -/

/-- When every entry is expired, one visit per entry gives one failed signal
per entry. -/
theorem failedSignals_length_sweepOutput (E : Env) (now mTimeout : Int) (m : SessionMap)
    (hall : ∀ e ∈ m, expired E now mTimeout e.2 = true) :
    (failedSignals (sweepOutput E now mTimeout m)).length = m.length := by
  rw [failedSignals_sweepOutput, List.length_map, List.filter_eq_self.mpr hall]

/-- C18 (as stated, refuted): with a 32-bit `time_t`, a timeout of 10000 ms
and an entry of age 2147484 whole seconds (at least ceil(10000 / 1000) = 10),
the product by 1000 wraps to a negative number and the entry is not expired;
under a timeout of 0 the same entry, of non-negative age, is not expired
either. With a 64-bit `time_t` the same happens at the age
9223372036854776. -/
theorem C18_overflow_not_expired :
    (0 : Int) < 10000 ∧
    (10000 + 999 : Int) / 1000 ≤ 1702147484 - (sampleInfo 1700000000 1).createTime ∧
    expired sampleEnv32 1702147484 10000 (sampleInfo 1700000000 1) = false ∧
    (0 : Int) ≤ 1702147484 - (sampleInfo 1700000000 1).createTime ∧
    expired sampleEnv32 1702147484 0 (sampleInfo 1700000000 1) = false ∧
    toTimeT 32 (toTimeT 32 (1702147484 - 1700000000) * 1000) = -2147483296 ∧
    (10000 + 999 : Int) / 1000 ≤ 9223372036854776 - (sampleInfo 0 1).createTime ∧
    expired sampleEnv 9223372036854776 10000 (sampleInfo 0 1) = false := by
  decide

/-- C18 (amended): the expiry test multiplies the age in whole seconds,
now - createTime, by 1000 in `time_t` and compares with the timeout in
milliseconds. Whenever that product is in the range of `time_t`: for a timeout
D > 0 the entry is expired exactly when its age in whole seconds is at least
(D + 999) / 1000, the least whole number of seconds not below D ms; an entry of
age 0 is not expired; under a timeout of 100 ms an entry is expired exactly from
age 1 on, under the default 10000 ms exactly from age 10 on; for a timeout
D ≤ 0 an entry of non-negative age is expired, and a sweep of a registry of such
entries (all products in range) returns within one loop evaluation per entry,
leaves the registry empty and reports every entry as failed. -/
theorem C18_expiry_in_whole_seconds (E : Env) (now D : Int) (v : SessionInfo) (st : State)
    (hbits : 0 < E.timeBits)
    (hlo : -timeHalf E.timeBits ≤ (now - v.createTime) * 1000)
    (hhi : (now - v.createTime) * 1000 < timeHalf E.timeBits) :
    (0 < D → (expired E now D v = true ↔ (D + 999) / 1000 ≤ now - v.createTime)) ∧
    (0 < D → ((D + 999) / 1000 - 1) * 1000 < D ∧ D ≤ (D + 999) / 1000 * 1000) ∧
    (0 < D → now - v.createTime = 0 → expired E now D v = false) ∧
    (expired E now 100 v = true ↔ 1 ≤ now - v.createTime) ∧
    (expired E now init.mTimeout v = true ↔ 10 ≤ now - v.createTime) ∧
    (D ≤ 0 → 0 ≤ now - v.createTime → expired E now D v = true) ∧
    (st.mTimeout ≤ 0 →
      (∀ e ∈ st.mSessionMap, 0 ≤ now - e.2.createTime ∧
        (now - e.2.createTime) * 1000 < timeHalf E.timeBits) →
      ∃ out, handleTimeoutSessions E (fun _ => now) st.mSessionMap.length st
          = some ({ st with mSessionMap := [] }, out) ∧
        (failedSignals out).length = st.mSessionMap.length) := by
  have hexp : ∀ T : Int, expired E now T v = true ↔ T ≤ (now - v.createTime) * 1000 :=
    fun T => expired_of_range E now T v hbits hlo hhi
  refine ⟨?_, ?_, ?_, ?_, ?_, ?_, ?_⟩
  · intro hD
    rw [hexp]
    omega
  · intro hD
    omega
  · intro hD hage
    cases h : expired E now D v with
    | false => rfl
    | true =>
      have := (hexp D).mp h
      omega
  · rw [hexp]
    omega
  · rw [hexp]
    simp only [init]
    omega
  · intro hD hage
    rw [hexp]
    omega
  · intro hD hage
    have hall : ∀ e ∈ st.mSessionMap, expired E now st.mTimeout e.2 = true := by
      intro e he
      obtain ⟨h0, h1⟩ := hage e he
      have hhalf : 0 < timeHalf E.timeBits := by omega
      rw [expired_of_range E now st.mTimeout e.2 hbits (by omega) h1]
      omega
    have hexit := sweepIter_exits E now st.mTimeout st.mSessionMap 0 [] [] (by
      intro e he hexp
      rw [hall e he] at hexp
      cases hexp)
    cases hrun : handleTimeoutSessions E (fun _ => now) st.mSessionMap.length st with
    | none =>
      simp only [handleTimeoutSessions, sweepStart] at hrun
      rw [hexit] at hrun
      cases hrun
    | some r =>
      obtain ⟨st1, out⟩ := r
      obtain ⟨h1, h2, _⟩ := handleTimeoutSessions_exit E now _ st st1 out hrun
      refine ⟨out, ?_, ?_⟩
      · rw [h1]
        have hnone : st.mSessionMap.filter (fun e => !expired E now st.mTimeout e.2) = [] := by
          rw [List.filter_eq_nil_iff]
          intro e he
          simp [hall e he]
        rw [hnone]
      · rw [h2]
        exact failedSignals_length_sweepOutput E now st.mTimeout st.mSessionMap hall

/-- Witness of `C18_expiry_in_whole_seconds`: under a timeout of 100 ms an
entry created at second 100 is not expired at second 100 and is expired at
second 101; under a timeout of 0 it is expired at second 100; with a 32-bit
`time_t` alike. -/
theorem C18_expiry_in_whole_seconds_witness :
    expired sampleEnv 100 100 (sampleInfo 100 1) = false ∧
    expired sampleEnv 101 100 (sampleInfo 100 1) = true ∧
    expired sampleEnv 100 0 (sampleInfo 100 1) = true ∧
    expired sampleEnv32 101 100 (sampleInfo 100 1) = true :=
  ⟨(C18_expiry_in_whole_seconds sampleEnv 100 100 (sampleInfo 100 1) (sampleState [])
      (by decide) (by decide) (by decide)).2.2.1 (by decide) (by decide),
   ((C18_expiry_in_whole_seconds sampleEnv 101 100 (sampleInfo 100 1) (sampleState [])
      (by decide) (by decide) (by decide)).1 (by decide)).mpr (by decide),
   (C18_expiry_in_whole_seconds sampleEnv 100 0 (sampleInfo 100 1) (sampleState [])
      (by decide) (by decide) (by decide)).2.2.2.2.2.1 (by decide) (by decide),
   ((C18_expiry_in_whole_seconds sampleEnv32 101 100 (sampleInfo 100 1) (sampleState [])
      (by decide) (by decide) (by decide)).1 (by decide)).mpr (by decide)⟩

/-! ## The datagram handler: the listen-port datagram -/

end NetworkManager
